import Mathlib

/-!
# Jira webhook receiver: custom-field extraction and story-point reconciliation

A shallow embedding of the HTTP handler of `main.go`:

* the dynamic-field extraction (`jsonparser.ObjectEach` with the callback of
  lines 182-201) over a JSON document tree;
* the trigger guard (lines 204 and 207);
* the reconciliation workflow (lines 208-262) against a tracker client whose
  three operations are given as state-passing functions, every call being
  recorded in a trace.

Go panics are the `error` side of `Except Panic` (`net/http` recovers a
panicking handler, so a panic ends the handling of that request only).

What the handler takes from the Go language and from libraries is modelled as
follows:

* `float64` is IEEE 754 binary64 with round-to-nearest-even, a finite value
  being given by its sign, significand and binary exponent; `int` is 64 bits
  wide, and the result of converting a `float64` it cannot represent is left
  to a parameter, as the language leaves it to the implementation;
* the request body is a JSON document tree, numbers carried as exact decimal
  values and strings as their raw text; `jsonparser.ObjectEach` searches the
  document for the given path of keys (the first member that completes the
  path, a member that does not lead to the rest of the path being left
  again) and visits the members of the object found in document order,
  reporting the type of each value; `jsonparser.ParseFloat` is the correctly rounded
  `strconv.ParseFloat`, an error when out of range; `jsonparser.ParseString`
  decodes the escape sequences of the JSON grammar;
* `json.Unmarshal` into the static `Event` schema is a parameter of the
  handler, and so are the three operations of the tracker client.
-/

namespace JiraWebhook

/-! ## Constants (main.go, lines 18-30) -/

/-- StoryPoints is the custom field identifier for story points. -/
def StoryPoints : String := "customfield_10021"

/-- Epic is the custom field identifier for the epic id. -/
def Epic : String := "customfield_10025"

/-- IssueUpdated is the event name for issue updated. -/
def IssueUpdated : String := "issue_updated"

/-- IssueCreated is the event name for issue created. -/
def IssueCreated : String := "issue_created"

/-! ## The Go type `float64` -/

/-- An IEEE 754 binary64 value. `finite neg mant exp` denotes
`(-1)^neg * mant * 2^exp`; the operations below produce the canonical form,
`2^52 ≤ mant < 2^53` with `-1074 ≤ exp ≤ 971` for normal numbers and
`mant < 2^52` with `exp = -1074` for subnormal numbers and the two zeros. -/
inductive Float64 where
  | finite (neg : Bool) (mant : Nat) (exp : Int)
  | inf (neg : Bool)
  | nan
deriving DecidableEq, Repr

/-- Number of binary digits of `n`; `fuel` bounds the number of halvings. -/
def bitLengthAux : Nat → Nat → Nat
  | 0, _ => 0
  | fuel + 1, n => if n = 0 then 0 else bitLengthAux fuel (n / 2) + 1

/-- Number of binary digits of `n` (0 for 0). -/
def bitLength (n : Nat) : Nat := bitLengthAux n n

/-- Floor of the binary logarithm of the ratio `n / d`, for positive `n`, `d`. -/
def floorLog2 (n d : Nat) : Int :=
  let k : Int := (bitLength n : Int) - (bitLength d : Int)
  if d * 2 ^ k.toNat ≤ n * 2 ^ (-k).toNat then k else k - 1

/-- The integer nearest to `n / d`, ties going to the even one. -/
def roundHalfEven (n d : Nat) : Nat :=
  let q := n / d
  let r := n % d
  if 2 * r < d then q else if d < 2 * r then q + 1 else if q % 2 = 0 then q else q + 1

/-- The sign `neg` applied to the magnitude `n`. -/
def signed (neg : Bool) (n : Nat) : Int := if neg then -(n : Int) else (n : Int)

namespace Float64

/-- The binary64 value nearest to `(-1)^neg * n / d` (`d` positive), ties to
even, overflowing to an infinity: IEEE 754 roundTiesToEven. -/
def round (neg : Bool) (n d : Nat) : Float64 :=
  if n = 0 then finite neg 0 (-1074) else
  let e : Int := max (floorLog2 n d - 52) (-1074)
  let m := roundHalfEven (n * 2 ^ (-e).toNat) (d * 2 ^ e.toNat)
  if 971 < e ∨ (e = 971 ∧ m = 2 ^ 53) then inf neg
  else if m = 2 ^ 53 then finite neg (2 ^ 52) (e + 1)
  else finite neg m e

/-- The binary64 value of an integer (exact up to `2^53` in magnitude). -/
def ofInt (i : Int) : Float64 := round (decide (i < 0)) i.natAbs 1

/-- The Go expression `x - y` on `float64` operands. -/
def sub : Float64 → Float64 → Float64
  | nan, _ => nan
  | _, nan => nan
  | inf a, inf b => if a = b then nan else inf a
  | inf a, finite _ _ _ => inf a
  | finite _ _ _, inf b => inf (!b)
  | finite na ma ea, finite nb mb eb =>
    let e := min ea eb
    let d : Int := signed na (ma * 2 ^ (ea - e).toNat) - signed nb (mb * 2 ^ (eb - e).toNat)
    if d = 0 then finite (na && !nb) 0 (-1074)
    else round (decide (d < 0)) (d.natAbs * 2 ^ e.toNat) (2 ^ (-e).toNat)

/-- The integer part of a finite value (rounding toward zero); `none` for the
infinities and NaN. -/
def trunc : Float64 → Option Int
  | finite neg m e => some (signed neg (m * 2 ^ e.toNat / 2 ^ (-e).toNat))
  | _ => none

end Float64

/-- Smallest value of the Go type `int`, taken 64 bits wide. -/
def minInt : Int := -9223372036854775808

/-- Largest value of the Go type `int`, taken 64 bits wide. -/
def maxInt : Int := 9223372036854775807

/-- Reduction of an integer into the range of `int` (two's complement). -/
def wrapInt (i : Int) : Int := (i + 9223372036854775808) % 18446744073709551616 - 9223372036854775808

/-- The Go conversion `int(f)` of a `float64`: the fraction is discarded
(truncation toward zero). When the result type cannot represent the value the
result is implementation-dependent: `impl f`, reduced into the range of `int`,
stands for whatever the platform yields. -/
def Float64.toInt (impl : Float64 → Int) (f : Float64) : Int :=
  match f.trunc with
  | some t => if minInt ≤ t ∧ t ≤ maxInt then t else wrapInt (impl f)
  | none => wrapInt (impl f)

/-- The result of an out-of-range conversion on amd64 (the "integer
indefinite" value of CVTTSD2SQ). -/
def amd64 : Float64 → Int := fun _ => minInt

/-! ## Go dynamic values, maps, errors and panics -/

deriving instance DecidableEq for Except

/-- A Go `interface{}` value as it occurs in the handler: what
`encoding/json` stores into an `interface{}`, the contents of slices and maps
left out since the handler never inspects them. -/
inductive Value where
  | nil
  | bool (b : Bool)
  | float64 (f : Float64)
  | string (s : String)
  | slice
  | map
deriving DecidableEq, Repr

/-- A Go `map[string]interface{}`, observed through lookups. -/
abbrev GoMap := String → Option Value

/-- The map `make(map[string]interface{})`. -/
def GoMap.empty : GoMap := fun _ => none

/-- The assignment `m[k] = v`. -/
def GoMap.set (m : GoMap) (k : String) (v : Value) : GoMap :=
  fun k' => if k' = k then some v else m k'

/-- A Go `error` value. -/
structure Error where
  msg : String
deriving DecidableEq, Repr

/-- A run-time panic that aborts the handling of the request. -/
inductive Panic where
  | err (e : Error)
  | interfaceConversion
  | nilPointerDereference
deriving DecidableEq, Repr

/-- The type assertion `x.(float64)` on the result of a map lookup: it panics
on a missing key (nil interface) and on any other dynamic type. -/
def assertFloat64 : Option Value → Except Panic Float64
  | some (.float64 f) => .ok f
  | _ => .error .interfaceConversion

/-- The type assertion `x.(string)` on the result of a map lookup. -/
def assertString : Option Value → Except Panic String
  | some (.string s) => .ok s
  | _ => .error .interfaceConversion

/-! ## JSON documents and the `jsonparser` functions used by the handler -/

/-- The abstract syntax of a JSON number token: `(-1)^neg * coeff * 10^exp10`
(the token `-12.5e3` is `⟨true, 125, 2⟩`). -/
structure JsonNumber where
  neg : Bool
  coeff : Nat
  exp10 : Int
deriving DecidableEq, Repr

/-- A well-formed JSON document. A string carries the raw text between its
quotes (escape sequences not yet decoded); the members of an object are kept
in document order, their names decoded. -/
inductive Json where
  | null
  | bool (b : Bool)
  | num (n : JsonNumber)
  | str (raw : String)
  | arr (items : List Json)
  | obj (members : List (String × Json))

/-- The type `jsonparser.ValueType`. -/
inductive ValueType where
  | NotExist
  | String
  | Number
  | Object
  | Array
  | Boolean
  | Null
  | Unknown
deriving DecidableEq, Repr

/-- The value type `jsonparser` reports for a value. -/
def Json.valueType : Json → ValueType
  | .null => .Null
  | .bool _ => .Boolean
  | .num _ => .Number
  | .str _ => .String
  | .arr _ => .Array
  | .obj _ => .Object

/-- The error `jsonparser.MalformedValueError`. -/
def MalformedValueError : Error := ⟨"malformed value"⟩

/-- The function `jsonparser.ParseFloat` on the bytes of a value, that is
`strconv.ParseFloat(s, 64)`: the nearest binary64 value, and an error when the
number is out of range (it rounds to an infinity) or the bytes are no number. -/
def ParseFloat : Json → Except Error Float64
  | .num n =>
    match Float64.round n.neg (n.coeff * 10 ^ n.exp10.toNat) (10 ^ (-n.exp10).toNat) with
    | .finite neg m e => .ok (.finite neg m e)
    | _ => .error MalformedValueError
  | _ => .error MalformedValueError

/-- Value of a hexadecimal digit. -/
def hexDigit (c : Char) : Option Nat :=
  if '0' ≤ c ∧ c ≤ '9' then some (c.toNat - '0'.toNat)
  else if 'a' ≤ c ∧ c ≤ 'f' then some (c.toNat - 'a'.toNat + 10)
  else if 'A' ≤ c ∧ c ≤ 'F' then some (c.toNat - 'A'.toNat + 10)
  else none

/-- The UTF-16 code unit written by the four hexadecimal digits of a `\u` escape. -/
def hex4 (a b c d : Char) : Option Nat :=
  match hexDigit a, hexDigit b, hexDigit c, hexDigit d with
  | some h1, some h2, some h3, some h4 => some (h1 * 4096 + h2 * 256 + h3 * 16 + h4)
  | _, _, _, _ => none

/-- The character a one-letter escape stands for. -/
def simpleEscape (c : Char) : Option Char :=
  if c = '"' then some '"'
  else if c = '\\' then some '\\'
  else if c = '/' then some '/'
  else if c = 'b' then some (Char.ofNat 8)
  else if c = 'f' then some (Char.ofNat 12)
  else if c = 'n' then some '\n'
  else if c = 'r' then some '\r'
  else if c = 't' then some '\t'
  else none

/-- Decoding of the escape sequences of a JSON string (`jsonparser.Unescape`):
one-letter escapes, `\uXXXX` for a code point of the basic plane and a pair of
`\u` escapes for a surrogate pair; any other use of a backslash is an error. -/
def unescape : List Char → Option (List Char)
  | [] => some []
  | c :: rest =>
    if c = '\\' then
      match rest with
      | [] => none
      | e :: rest1 =>
        if e = 'u' then
          match rest1 with
          | a :: b :: c1 :: d :: rest2 =>
            match hex4 a b c1 d with
            | none => none
            | some r =>
              if r < 0xD800 ∨ 0xDFFF < r then (unescape rest2).map (Char.ofNat r :: ·)
              else if 0xDC00 ≤ r then none
              else
                match rest2 with
                | b1 :: u1 :: a2 :: b2 :: c2 :: d2 :: rest3 =>
                  if b1 = '\\' ∧ u1 = 'u' then
                    match hex4 a2 b2 c2 d2 with
                    | none => none
                    | some r2 =>
                      if 0xDC00 ≤ r2 ∧ r2 ≤ 0xDFFF then
                        (unescape rest3).map
                          (Char.ofNat (0x10000 + (r - 0xD800) * 1024 + (r2 - 0xDC00)) :: ·)
                      else none
                  else none
                | _ => none
          | _ => none
        else
          match simpleEscape e with
          | some ch => (unescape rest1).map (ch :: ·)
          | none => none
    else (unescape rest).map (c :: ·)

/-- The function `jsonparser.ParseString` on the bytes of a value: the string
with its escape sequences decoded, or an error. -/
def ParseString : Json → Except Error String
  | .str raw =>
    match unescape raw.data with
    | some cs => .ok (String.mk cs)
    | none => .error MalformedValueError
  | _ => .error MalformedValueError

/-- The scan of the members of one object in `jsonparser`'s key search, for
the path key `key`. A member of another name is passed over, its value
skipped. At a member named `key`: when `key` is the last key of the path
(`isLast`) the search ends with its value, of whatever type; otherwise the
scan goes down into the value when it is an object (`descend`, the search for
the rest of the path), and when that finds nothing, or the value is no object,
it goes on with the members that follow. -/
def searchMembers (key : String) (isLast : Bool) (descend : Json → Option Json) :
    List (String × Json) → Option Json
  | [] => none
  | (k, v) :: rest =>
    if k = key then
      if isLast then some v
      else
        match v with
        | .obj _ =>
          match descend v with
          | some found => some found
          | none => searchMembers key isLast descend rest
        | _ => searchMembers key isLast descend rest
    else searchMembers key isLast descend rest

/-- The value `jsonparser`'s key search finds for the path `keys` of object
keys (`searchKeys`, a single scan of the document in document order): the
value of the first member that completes the path. A member that matches a
key of the path and does not lead to the rest of it is left again, so a later
member of the same name is still examined; keys inside arrays are not
searched. -/
def searchKeys (data : Json) : List String → Option Json
  | [] => some data
  | key :: keys =>
    match data with
    | .obj members => searchMembers key keys.isEmpty (fun v => searchKeys v keys) members
    | _ => none

/-- The loop of `jsonparser.ObjectEach`: the callback is invoked on every
member in document order, threading the state it mutates; a panic of the
callback ends the loop. -/
def eachMember {α : Type} (callback : String → Json → ValueType → α → Except Panic α) :
    List (String × Json) → α → Except Panic α
  | [], acc => .ok acc
  | (key, value) :: rest, acc =>
    match callback key value value.valueType acc with
    | .ok acc1 => eachMember callback rest acc1
    | .error p => .error p

/-- The members `jsonparser.ObjectEach(data, callback, keys...)` iterates
over: those of the value the key search finds, when it is an object. When the
search finds nothing, or finds a value that is no object, `ObjectEach` returns
an error before any callback, and there is no member to iterate over. -/
def objectMembers (data : Json) (keys : List String) : List (String × Json) :=
  match searchKeys data keys with
  | some (.obj members) => members
  | _ => []

/-- The function `jsonparser.ObjectEach(data, callback, keys...)`, its own
`error` result left out since the handler discards it. -/
def ObjectEach {α : Type} (data : Json)
    (callback : String → Json → ValueType → α → Except Panic α) (keys : List String)
    (init : α) : Except Panic α :=
  eachMember callback (objectMembers data keys) init

/-- The function `bytes.HasPrefix`. -/
def HasPrefix (s pre : String) : Bool := pre.data.isPrefixOf s.data

/-- The function `strings.Contains`: `substr` occurs within `s`. -/
def Contains (s substr : String) : Bool := decide (substr.data <:+: s.data)

/-! ## The event model (main.go, lines 44-50 and 103-129)

Only the fields the handler reads are kept; the other static fields are
decoded by `json.Unmarshal` and never used. -/

/-- Fields is an issue field. -/
structure Fields where
  Description : String
  CustomFields : GoMap

/-- Issue is a single JIRA issue. -/
structure Issue where
  Fields : JiraWebhook.Fields
  ID : String
  Key : String
  Self : String

/-- Event is the main wrapper for a JIRA webhook event. -/
structure Event where
  Issue : JiraWebhook.Issue
  IssueEventTypeName : String
  WebhookEvent : String

/-! ## The tracker client (package `go-jira`) -/

namespace jira

/-- The part of `jira.IssueFields` the handler reads: the fields the library
does not model, keyed by identifier. -/
structure IssueFields where
  Unknowns : GoMap

/-- The type `jira.Issue`; `Fields` is a pointer and may be nil. -/
structure Issue where
  ID : String
  Key : String
  Fields : Option IssueFields

/-- The type `jira.Comment`. -/
structure Comment where
  ID : String := ""
  Self : String := ""
  Body : String
deriving DecidableEq, Repr

/-- The type `jira.Response`. -/
structure Response where
  StatusCode : Int
deriving DecidableEq, Repr

end jira

/-- The update request `map[string]interface{}` built by the handler: a map
literal, given by its entries, whose values are map literals in turn. -/
abbrev Request := List (String × List (String × Value))

/-- The three operations of `client.Issue` the handler calls. The tracker is
an external service: each operation returns its result together with the next
tracker state. -/
structure Client (σ : Type) where
  Get : String → σ → Except Error jira.Issue × σ
  UpdateIssue : String → Request → σ → Except Error jira.Response × σ
  AddComment : String → jira.Comment → σ → Except Error jira.Comment × σ

/-- A call made to the tracker client, with its arguments. -/
inductive Call where
  | Get (issueID : String)
  | UpdateIssue (issueID : String) (request : Request)
  | AddComment (issueID : String) (comment : jira.Comment)
deriving DecidableEq, Repr

/-- What handling one request amounts to: the tracker calls made, in order,
whether the handler returned or panicked, and the tracker state left. -/
structure Outcome (σ : Type) where
  calls : List Call
  result : Except Panic Unit
  tracker : σ

/-! ## The handler (main.go, lines 165-267) -/

/-- The callback passed to `jsonparser.ObjectEach` (lines 182-200), the map
`event.Issue.Fields.CustomFields` it assigns to being passed through. -/
def customFieldCallback (key : String) (value : Json) (dataType : ValueType)
    (customFields : GoMap) : Except Panic GoMap :=
  if HasPrefix key "customfield_" then
    if dataType = ValueType.Number then
      match ParseFloat value with
      | .error err => .error (.err err)
      | .ok float => .ok (customFields.set key (.float64 float))
    else if dataType = ValueType.String then
      match ParseString value with
      | .error err => .error (.err err)
      | .ok s => .ok (customFields.set key (.string s))
    else .ok customFields
  else .ok customFields

/-- Lines 180-201: the custom fields found among the members of
`issue.fields` of the request body. -/
def extractCustomFields (body : Json) : Except Panic GoMap :=
  ObjectEach body customFieldCallback ["issue", "fields"] GoMap.empty

/-- The comment text of lines 245-250:
`fmt.Sprintf("subtracted %d story points from epic %s. the epic has %d story points left.",
int(issueStoryPoints), epicName, int(newEpicStoryPoints))`. -/
def commentBody (impl : Float64 → Int) (issueStoryPoints : Float64) (epicName : String)
    (newEpicStoryPoints : Float64) : String :=
  "subtracted " ++ toString (issueStoryPoints.toInt impl) ++ " story points from epic "
    ++ epicName ++ ". the epic has " ++ toString (newEpicStoryPoints.toInt impl)
    ++ " story points left."

/-- Lines 208-262: the reconciliation workflow run for a triggering event. -/
def reconcile {σ : Type} (impl : Float64 → Int) (client : Client σ) (event : Event) (s : σ) :
    Outcome σ :=
  match assertFloat64 (event.Issue.Fields.CustomFields StoryPoints) with
  | .error p => ⟨[], .error p, s⟩
  | .ok issueStoryPoints =>
  match assertString (event.Issue.Fields.CustomFields Epic) with
  | .error p => ⟨[], .error p, s⟩
  | .ok epicName =>
  -- get epic from jira
  match client.Get epicName s with
  | (.error err, s1) => ⟨[.Get epicName], .error (.err err), s1⟩
  | (.ok epic, s1) =>
  match epic.Fields with
  | none => ⟨[.Get epicName], .error .nilPointerDereference, s1⟩
  | some fields =>
  match assertFloat64 (fields.Unknowns StoryPoints) with
  | .error p => ⟨[.Get epicName], .error p, s1⟩
  | .ok epicStoryPoints =>
  -- calculate new epic story points
  let newEpicStoryPoints := epicStoryPoints.sub issueStoryPoints
  -- create update request
  let request : Request := [("fields", [(StoryPoints, .float64 newEpicStoryPoints)])]
  -- update epic with new story points
  match client.UpdateIssue epicName request s1 with
  | (.error err, s2) => ⟨[.Get epicName, .UpdateIssue epicName request], .error (.err err), s2⟩
  | (.ok _, s2) =>
  -- create comment for newly created issue
  let comment : jira.Comment :=
    { Body := commentBody impl issueStoryPoints epicName newEpicStoryPoints }
  -- add comment to newly created issue
  match client.AddComment event.Issue.Key comment s2 with
  | (.error err, s3) =>
    ⟨[.Get epicName, .UpdateIssue epicName request, .AddComment event.Issue.Key comment],
      .error (.err err), s3⟩
  | (.ok _, s3) =>
    ⟨[.Get epicName, .UpdateIssue epicName request, .AddComment event.Issue.Key comment],
      .ok (), s3⟩

/-- Lines 203-265: what the handler does with the decoded event. -/
def handleEvent {σ : Type} (impl : Float64 → Int) (client : Client σ) (event : Event) (s : σ) :
    Outcome σ :=
  -- handle events for newly created issues only
  if event.IssueEventTypeName = IssueCreated then
    -- check if @bot is mentioned
    if Contains event.Issue.Fields.Description "@bot subtract" then
      reconcile impl client event s
    else ⟨[], .ok (), s⟩
  else ⟨[], .ok (), s⟩

/-- The event with its `Issue.Fields.CustomFields` replaced (line 181 and the
assignments of the callback). -/
def Event.withCustomFields (event : Event) (customFields : GoMap) : Event :=
  { event with
    Issue := { event.Issue with
      Fields := { event.Issue.Fields with CustomFields := customFields } } }

/-- The handler of `/webhooks` on a request body that was read; `Unmarshal`
stands for `json.Unmarshal(body, &event)` into the static `Event` schema. -/
def webhookHandler {σ : Type} (Unmarshal : Json → Except Error Event) (impl : Float64 → Int)
    (client : Client σ) (body : Json) (s : σ) : Outcome σ :=
  match Unmarshal body with
  | .error err => ⟨[], .error (.err err), s⟩
  | .ok event =>
    match extractCustomFields body with
    | .error p => ⟨[], .error p, s⟩
    | .ok customFields => handleEvent impl client (event.withCustomFields customFields) s

/-! ## Sample data -/

/-- A created-issue event that mentions the bot, with 3 story points and the
epic EPIC-1. -/
def sampleEvent : Event :=
  { Issue :=
      { Fields :=
          { Description := "please @bot subtract the points"
            CustomFields :=
              (GoMap.empty.set StoryPoints (.float64 (Float64.ofInt 3))).set Epic (.string "EPIC-1") }
        ID := "10002", Key := "PROJ-7", Self := "" }
    IssueEventTypeName := IssueCreated
    WebhookEvent := "jira:issue_created" }

/-- The sample event with its story points given as the string "3". -/
def sampleEventStringPoints : Event :=
  sampleEvent.withCustomFields
    ((GoMap.empty.set StoryPoints (.string "3")).set Epic (.string "EPIC-1"))

/-- The value `ParseFloat` yields for the payload number `1e19`:
`4882812500000000 * 2^11`. -/
def tenToThe19 : Float64 := .finite false 4882812500000000 11

/-- The sample event with `1e19` as its story points. -/
def sampleEventHugePoints : Event :=
  sampleEvent.withCustomFields
    ((GoMap.empty.set StoryPoints (.float64 tenToThe19)).set Epic (.string "EPIC-1"))

/-- A tracker whose state is the story points of its one epic; every call
succeeds, an update storing the points it is given. -/
def sampleClient : Client Float64 :=
  { Get := fun key pts =>
      (.ok { ID := "10001", Key := key,
             Fields := some { Unknowns := GoMap.empty.set StoryPoints (.float64 pts) } }, pts)
    UpdateIssue := fun _ request pts =>
      match request with
      | [(_, [(_, .float64 f)])] => (.ok { StatusCode := 204 }, f)
      | _ => (.error ⟨"bad request"⟩, pts)
    AddComment := fun _ comment pts => (.ok { comment with ID := "1" }, pts) }

/-- A tracker that knows no issue: every fetch fails. -/
def notFoundClient : Client Float64 :=
  { sampleClient with Get := fun _ pts => (.error ⟨"404 Not Found"⟩, pts) }

/-- A tracker that refuses every update. -/
def readOnlyClient : Client Float64 :=
  { sampleClient with UpdateIssue := fun _ _ pts => (.error ⟨"403 Forbidden"⟩, pts) }

/-! ## Vocabulary for the statements on the extraction -/

/-- Whether a value is a number or a string, the two scalar types the
callback decodes. -/
def Json.isScalar : Json → Bool
  | .num _ => true
  | .str _ => true
  | _ => false

/-- Whether the decoding the callback applies to a value succeeds: a number
has to parse as a `float64`, a string has to unescape; for every other type
there is nothing to decode. -/
def decodes : Json → Bool
  | .num n => (ParseFloat (.num n)).toBool
  | .str raw => (ParseString (.str raw)).toBool
  | _ => true

/-- Whether every member with the custom-field prefix decodes. -/
def allDecode (members : List (String × Json)) : Bool :=
  members.all (fun kv => !HasPrefix kv.1 "customfield_" || decodes kv.2)

/-- The members of `issue.fields` of a request body. -/
def issueFields (body : Json) : List (String × Json) :=
  objectMembers body ["issue", "fields"]

/-- The body is an object whose one member `issue` is an object whose one
member `fields` is the object with the members `fs`: the path is unambiguous,
every member named `issue` holding the same object and every member of it
named `fields` holding the same object. -/
def IsIssueFields (body : Json) (fs : List (String × Json)) : Prop :=
  ∃ ms im, body = .obj ms ∧
    ("issue", Json.obj im) ∈ ms ∧ (∀ v, ("issue", v) ∈ ms → v = Json.obj im) ∧
    ("fields", Json.obj fs) ∈ im ∧ (∀ v, ("fields", v) ∈ im → v = Json.obj fs)

/-- The map a returning extraction yields, observed at the given keys. -/
def lookups (r : Except Panic GoMap) (keys : List String) : Except Panic (List (Option Value)) :=
  r.map (fun m => keys.map m)

/-- The members of the `issue.fields` object of the sample body: a
description, a priority with a custom-field name nested in it, 3 story
points, the epic EPIC-1, a custom field holding a string with escape
sequences, a custom field holding null and one holding an array. -/
def sampleFields : List (String × Json) :=
  [("description", .str "please @bot subtract the points"),
   ("priority", .obj [("name", .str "High"), ("customfield_10050", .num ⟨false, 2, 0⟩)]),
   ("customfield_10021", .num ⟨false, 3, 0⟩),
   ("customfield_10025", .str "EPIC-1"),
   ("customfield_10026", .str "caf\\u00e9 \\\"A\\\"\\n\\ud83d\\ude00"),
   ("customfield_10030", .null),
   ("customfield_10031", .arr [.num ⟨false, 4, 0⟩])]

/-- The members of the `issue` object of the sample body. -/
def sampleIssue : List (String × Json) :=
  [("key", .str "PROJ-7"), ("fields", .obj sampleFields)]

/-- A request body: the sample issue, and a custom-field name outside of
`issue.fields`. -/
def sampleBody : Json :=
  .obj [
    ("issue_event_type_name", .str "issue_created"),
    ("customfield_10040", .num ⟨false, 1, 0⟩),
    ("issue", .obj sampleIssue)]

/-- The members of an `issue.fields` object with 3 story points and the epic
EPIC-1. -/
def pointsAndEpic : List (String × Json) :=
  [("customfield_10021", .num ⟨false, 3, 0⟩), ("customfield_10025", .str "EPIC-1")]

/-- A request body with two members named `issue`, the first one an empty
object, the second one holding the fields. -/
def duplicateIssueBody : Json :=
  .obj [("issue", .obj []), ("issue", .obj [("fields", .obj pointsAndEpic)])]

/-- The body with two members named `issue` whose second one holds the
number `1e400`, beyond the range of `float64`. -/
def duplicateIssueHugeBody : Json :=
  .obj [("issue", .obj []),
    ("issue", .obj [("fields", .obj [("customfield_10021", .num ⟨false, 1, 400⟩)])])]

/-- A request body with custom-field names in every place but one that is not
an immediate member of `issue.fields`: at top level, in a top-level `fields`
object, directly in `issue`, in a `fields` object nested deeper in `issue`,
and inside `issue.fields` in an object and in an array. The one immediate
member of `issue.fields` is `customfield_10021`. -/
def misplacedBody : Json :=
  .obj [
    ("customfield_10040", .num ⟨false, 1, 0⟩),
    ("fields", .obj [("customfield_10041", .num ⟨false, 1, 0⟩)]),
    ("issue", .obj [
      ("customfield_10042", .num ⟨false, 1, 0⟩),
      ("nested", .obj [("fields", .obj [("customfield_10043", .num ⟨false, 1, 0⟩)])]),
      ("fields", .obj [
        ("customfield_10021", .num ⟨false, 3, 0⟩),
        ("priority", .obj [("customfield_10050", .num ⟨false, 2, 0⟩)]),
        ("labels", .arr [.obj [("customfield_10044", .num ⟨false, 1, 0⟩)]])])])]

/-- A request body without a member `issue`: the `fields` object is at top
level. -/
def noIssueBody : Json :=
  .obj [("fields", .obj pointsAndEpic)]

/-- A request body whose `issue` has no member `fields`: the custom fields
are members of `issue` itself. -/
def noFieldsBody : Json :=
  .obj [("issue", .obj pointsAndEpic)]

/-- A request body whose `issue` has two members named `fields`, the first
one null. -/
def nullFieldsBody : Json :=
  .obj [("issue", .obj [("fields", .null), ("fields", .obj pointsAndEpic)])]

/-- A request body with a custom field whose string has a malformed escape
sequence. -/
def badEscapeBody : Json :=
  .obj [("issue", .obj [("fields", .obj [("customfield_10026", .str "a\\qb")])])]

/-! ## The `float64` model on integers -/

theorem bitLengthAux_zero (fuel : Nat) : bitLengthAux fuel 0 = 0 := by
  cases fuel <;> simp [bitLengthAux]

theorem bitLengthAux_bounds (fuel n : Nat) (hf : n ≤ fuel) (hn : n ≠ 0) :
    1 ≤ bitLengthAux fuel n ∧ 2 ^ (bitLengthAux fuel n - 1) ≤ n ∧ n < 2 ^ bitLengthAux fuel n := by
  induction fuel generalizing n with
  | zero => omega
  | succ fuel ih =>
    simp only [bitLengthAux, hn, if_false]
    by_cases h2 : n / 2 = 0
    · have h1 : n = 1 := by omega
      subst h1
      simp [bitLengthAux_zero]
    · obtain ⟨hb1, hlo, hhi⟩ := ih (n / 2) (by omega) h2
      refine ⟨by omega, ?_, ?_⟩
      · have : bitLengthAux fuel (n / 2) + 1 - 1 = (bitLengthAux fuel (n / 2) - 1) + 1 := by omega
        rw [this, pow_succ]
        omega
      · rw [pow_succ]
        omega

theorem bitLength_bounds (n : Nat) (hn : n ≠ 0) :
    1 ≤ bitLength n ∧ 2 ^ (bitLength n - 1) ≤ n ∧ n < 2 ^ bitLength n :=
  bitLengthAux_bounds n n (le_refl n) hn

theorem bitLength_unique (n c : Nat) (hlo : 2 ^ c ≤ n) (hhi : n < 2 ^ (c + 1)) :
    bitLength n = c + 1 := by
  have hn : n ≠ 0 := by
    have : 0 < 2 ^ c := Nat.pow_pos (by decide)
    omega
  obtain ⟨hb1, hl, hh⟩ := bitLength_bounds n hn
  have h1 : c < bitLength n := (Nat.pow_lt_pow_iff_right (by decide : 1 < 2)).mp (lt_of_le_of_lt hlo hh)
  have h2 : bitLength n - 1 < c + 1 :=
    (Nat.pow_lt_pow_iff_right (by decide : 1 < 2)).mp (lt_of_le_of_lt hl hhi)
  omega

theorem bitLength_mul_pow (n k : Nat) (hn : n ≠ 0) : bitLength (n * 2 ^ k) = bitLength n + k := by
  obtain ⟨hb1, hl, hh⟩ := bitLength_bounds n hn
  have h := bitLength_unique (n * 2 ^ k) (bitLength n - 1 + k) (by
    rw [pow_add]
    exact Nat.mul_le_mul_right _ hl) (by
    have : bitLength n - 1 + k + 1 = bitLength n + k := by omega
    rw [this, pow_add]
    exact Nat.mul_lt_mul_of_pos_right hh (Nat.pow_pos (by decide)))
  omega

theorem bitLength_pow (k : Nat) : bitLength (2 ^ k) = k + 1 :=
  bitLength_unique (2 ^ k) k (le_refl _) (by rw [pow_succ]; have : 0 < 2 ^ k := Nat.pow_pos (by decide); omega)

theorem floorLog2_scaled (n k : Nat) (hn : n ≠ 0) :
    floorLog2 (n * 2 ^ k) (2 ^ k) = (bitLength n : Int) - 1 := by
  obtain ⟨hb1, hl, hh⟩ := bitLength_bounds n hn
  have hk : ((bitLength (n * 2 ^ k) : Int) - (bitLength (2 ^ k) : Int)) = ((bitLength n - 1 : Nat) : Int) := by
    rw [bitLength_mul_pow n k hn, bitLength_pow]
    push_cast
    omega
  simp only [floorLog2, hk, Int.toNat_ofNat]
  have hneg : (-((bitLength n - 1 : Nat) : Int)).toNat = 0 := by omega
  rw [hneg]
  have hle : 2 ^ k * 2 ^ (bitLength n - 1) ≤ n * 2 ^ k * 2 ^ 0 := by
    rw [pow_zero, mul_one, mul_comm]
    exact Nat.mul_le_mul_right _ hl
  rw [if_pos hle]
  omega

theorem roundHalfEven_exact (x d : Nat) (hd : 0 < d) : roundHalfEven (x * d) d = x := by
  simp [roundHalfEven, Nat.mul_div_cancel _ hd, hd]

namespace Float64

theorem round_scaled (neg : Bool) (n k : Nat) (hn : n ≠ 0) (hlt : n < 2 ^ 53) :
    round neg (n * 2 ^ k) (2 ^ k) =
      finite neg (n * 2 ^ (53 - bitLength n)) ((bitLength n : Int) - 53) := by
  obtain ⟨hb1, hl, hh⟩ := bitLength_bounds n hn
  have hb53 : bitLength n ≤ 53 := by
    by_contra hc
    have : 2 ^ 53 ≤ 2 ^ (bitLength n - 1) := Nat.pow_le_pow_right (by decide) (by omega)
    omega
  have hpos : 0 < 2 ^ k := Nat.pow_pos (by decide)
  have hne : n * 2 ^ k ≠ 0 := by
    have := Nat.mul_pos (Nat.pos_of_ne_zero hn) hpos
    omega
  have he : max (floorLog2 (n * 2 ^ k) (2 ^ k) - 52) (-1074) = (bitLength n : Int) - 53 := by
    rw [floorLog2_scaled n k hn]
    omega
  have hm : n * 2 ^ (53 - bitLength n) < 2 ^ 53 := by
    calc n * 2 ^ (53 - bitLength n) < 2 ^ bitLength n * 2 ^ (53 - bitLength n) :=
          Nat.mul_lt_mul_of_pos_right hh (Nat.pow_pos (by decide))
      _ = 2 ^ 53 := by rw [← pow_add]; congr 1; omega
  simp only [round, hne, if_false, he]
  have h1 : (-((bitLength n : Int) - 53)).toNat = 53 - bitLength n := by omega
  have h2 : ((bitLength n : Int) - 53).toNat = 0 := by omega
  rw [h1, h2, pow_zero, mul_one]
  have h3 : n * 2 ^ k * 2 ^ (53 - bitLength n) = (n * 2 ^ (53 - bitLength n)) * 2 ^ k := by ring
  rw [h3, roundHalfEven_exact _ _ hpos]
  have h4 : ¬ (971 < (bitLength n : Int) - 53 ∨
      ((bitLength n : Int) - 53 = 971 ∧ n * 2 ^ (53 - bitLength n) = 2 ^ 53)) := by omega
  have h5 : n * 2 ^ (53 - bitLength n) ≠ 2 ^ 53 := by omega
  have h6 : ¬ (971 < (bitLength n : Int) - 53 ∨ ((bitLength n : Int) - 53 = 971 ∧ False)) := by
    omega
  simp only [h5, h6, if_false]

end Float64

theorem signed_natAbs_mul (i : Int) (x : Nat) :
    signed (decide (i < 0)) (i.natAbs * x) = i * (x : Int) := by
  by_cases h : i < 0
  · have hi : (i.natAbs : Int) = -i := by omega
    simp only [signed, h, decide_True, if_true, Nat.cast_mul, hi]
    ring
  · have hi : (i.natAbs : Int) = i := by omega
    simp only [signed, h, decide_False, Nat.cast_mul, hi]
    rfl

namespace Float64

theorem ofInt_zero : ofInt 0 = finite false 0 (-1074) := by decide

theorem ofInt_of_ne_zero (i : Int) (hi : i ≠ 0) (hlt : i.natAbs < 2 ^ 53) :
    ofInt i = finite (decide (i < 0)) (i.natAbs * 2 ^ (53 - bitLength i.natAbs))
      ((bitLength i.natAbs : Int) - 53) := by
  have h := round_scaled (decide (i < 0)) i.natAbs 0 (by omega) hlt
  rw [pow_zero, mul_one] at h
  exact h

/-- Every integer below `2^53` in magnitude is represented exactly, with a
binary exponent that is not positive. -/
theorem ofInt_repr (i : Int) (hlt : i.natAbs < 2 ^ 53) :
    ∃ e : Nat, ofInt i = finite (decide (i < 0)) (i.natAbs * 2 ^ e) (-(e : Int)) := by
  by_cases hi : i = 0
  · subst hi
    refine ⟨1074, ?_⟩
    rw [ofInt_zero, Int.natAbs_zero, Nat.zero_mul]
    rfl
  · have hb : bitLength i.natAbs ≤ 53 := by
      obtain ⟨-, hl, -⟩ := bitLength_bounds i.natAbs (by omega)
      by_contra hc
      have : 2 ^ 53 ≤ 2 ^ (bitLength i.natAbs - 1) := Nat.pow_le_pow_right (by decide) (by omega)
      omega
    refine ⟨53 - bitLength i.natAbs, ?_⟩
    rw [ofInt_of_ne_zero i hi hlt]
    congr 1
    omega

/-- The integer part of the binary64 value of an integer below `2^53` in
magnitude is that integer. -/
theorem trunc_ofInt (i : Int) (hlt : i.natAbs < 2 ^ 53) : (ofInt i).trunc = some i := by
  obtain ⟨e, he⟩ := ofInt_repr i hlt
  rw [he]
  simp only [trunc]
  have h1 : (-(e : Int)).toNat = 0 := by omega
  have h2 : (- -(e : Int)).toNat = e := by omega
  rw [h1, h2, pow_zero, mul_one, Nat.mul_div_cancel _ (Nat.pow_pos (by decide))]
  have := signed_natAbs_mul i 1
  simpa using this

/-- On integers below `2^53` in magnitude whose difference is below `2^53` in
magnitude too, the `float64` subtraction is the subtraction of integers. -/
theorem sub_ofInt (a b : Int) (ha : a.natAbs < 2 ^ 53) (hb : b.natAbs < 2 ^ 53)
    (hab : (a - b).natAbs < 2 ^ 53) : (ofInt a).sub (ofInt b) = ofInt (a - b) := by
  obtain ⟨ea, hea⟩ := ofInt_repr a ha
  obtain ⟨eb, heb⟩ := ofInt_repr b hb
  rw [hea, heb]
  simp only [sub]
  have hmin : min (-(ea : Int)) (-(eb : Int)) = -((max ea eb : Nat) : Int) := by omega
  rw [hmin]
  have h1 : (-(ea : Int) - -((max ea eb : Nat) : Int)).toNat = max ea eb - ea := by omega
  have h2 : (-(eb : Int) - -((max ea eb : Nat) : Int)).toNat = max ea eb - eb := by omega
  have h3 : (-((max ea eb : Nat) : Int)).toNat = 0 := by omega
  have h4 : (- -((max ea eb : Nat) : Int)).toNat = max ea eb := by omega
  rw [h1, h2, h3, h4]
  have hma : a.natAbs * 2 ^ ea * 2 ^ (max ea eb - ea) = a.natAbs * 2 ^ max ea eb := by
    rw [mul_assoc, ← pow_add]
    congr 2
    omega
  have hmb : b.natAbs * 2 ^ eb * 2 ^ (max ea eb - eb) = b.natAbs * 2 ^ max ea eb := by
    rw [mul_assoc, ← pow_add]
    congr 2
    omega
  rw [hma, hmb, signed_natAbs_mul, signed_natAbs_mul, ← Int.sub_mul]
  have hpow : ((2 ^ max ea eb : Nat) : Int) ≠ 0 := by
    have : 0 < 2 ^ max ea eb := Nat.pow_pos (by decide)
    omega
  by_cases hd : a - b = 0
  · have hab2 : a = b := by omega
    subst hab2
    simp [ofInt_zero]
  · have hne : (a - b) * ((2 ^ max ea eb : Nat) : Int) ≠ 0 := mul_ne_zero hd hpow
    simp only [hne, if_false]
    have hneg : decide ((a - b) * ((2 ^ max ea eb : Nat) : Int) < 0) = decide (a - b < 0) := by
      have hp : (0 : Int) < ((2 ^ max ea eb : Nat) : Int) := by
        have : 0 < 2 ^ max ea eb := Nat.pow_pos (by decide)
        omega
      congr 1
      exact propext ⟨fun h => by
        by_contra hc
        have := mul_nonneg (not_lt.mp hc) (le_of_lt hp)
        omega, fun h => mul_neg_of_neg_of_pos h hp⟩
    have habs : ((a - b) * ((2 ^ max ea eb : Nat) : Int)).natAbs
        = (a - b).natAbs * 2 ^ max ea eb := by
      rw [Int.natAbs_mul, Int.natAbs_ofNat]
    rw [hneg, habs, pow_zero, mul_one,
      round_scaled _ (a - b).natAbs _ (by omega) hab, ofInt_of_ne_zero (a - b) hd hab]

end Float64

/-- The subtraction rounds: 0.3 - 0.1 is the binary64 value next below 0.2.
The difference of two zeros of opposite sign keeps the sign of the first, and
a difference beyond the largest finite value is an infinity. -/
theorem sub_rounds :
    (Float64.round false 3 10).sub (Float64.round false 1 10)
      = Float64.finite false 7205759403792793 (-55) ∧
    Float64.round false 2 10 = Float64.finite false 7205759403792794 (-55) ∧
    (Float64.finite true 0 (-1074)).sub (Float64.finite false 0 (-1074))
      = Float64.finite true 0 (-1074) ∧
    (Float64.finite false 9007199254740991 971).sub (Float64.finite true 9007199254740991 971)
      = Float64.inf false := by
  refine ⟨by decide, by decide, by decide, by decide!⟩

/-! ## The workflow -/

theorem reconcile_ne_idle {σ : Type} (impl : Float64 → Int) (client : Client σ) (event : Event)
    (s s1 : σ) : reconcile impl client event s ≠ ⟨[], .ok (), s1⟩ := by
  intro h
  have hc := congrArg Outcome.calls h
  simp only [reconcile] at hc
  repeat' split at hc
  all_goals first | (simp at hc; done) | (simp [reconcile, *] at h)

/-- The handler on a triggering event with valid inputs whose parent was
fetched with its points: what remains is the update and the comment. -/
theorem handleEvent_after_fetch {σ : Type} (impl : Float64 → Int) (client : Client σ)
    (event : Event) (s s1 : σ) (c p : Float64) (k : String) (epic : jira.Issue)
    (fields : jira.IssueFields)
    (htype : event.IssueEventTypeName = IssueCreated)
    (hdesc : Contains event.Issue.Fields.Description "@bot subtract" = true)
    (hc : event.Issue.Fields.CustomFields StoryPoints = some (.float64 c))
    (hk : event.Issue.Fields.CustomFields Epic = some (.string k))
    (hget : client.Get k s = (.ok epic, s1))
    (hfields : epic.Fields = some fields)
    (hp : fields.Unknowns StoryPoints = some (.float64 p)) :
    handleEvent impl client event s =
      match client.UpdateIssue k [("fields", [(StoryPoints, .float64 (p.sub c))])] s1 with
      | (.error err, s2) =>
        ⟨[.Get k, .UpdateIssue k [("fields", [(StoryPoints, .float64 (p.sub c))])]],
          .error (.err err), s2⟩
      | (.ok _, s2) =>
        match client.AddComment event.Issue.Key { Body := commentBody impl c k (p.sub c) } s2 with
        | (.error err, s3) =>
          ⟨[.Get k, .UpdateIssue k [("fields", [(StoryPoints, .float64 (p.sub c))])],
            .AddComment event.Issue.Key { Body := commentBody impl c k (p.sub c) }],
            .error (.err err), s3⟩
        | (.ok _, s3) =>
          ⟨[.Get k, .UpdateIssue k [("fields", [(StoryPoints, .float64 (p.sub c))])],
            .AddComment event.Issue.Key { Body := commentBody impl c k (p.sub c) }],
            .ok (), s3⟩ := by
  simp only [handleEvent, htype, hdesc, if_true, reconcile, hc, hk, assertFloat64, assertString,
    hget, hfields, hp]

/-- The handler on a request whose body decodes: it goes on with the event
carrying the extracted custom fields. When `json.Unmarshal` fails, or a custom
field does not decode, it panics before any tracker call. -/
theorem webhookHandler_decoded {σ : Type} (Unmarshal : Json → Except Error Event)
    (impl : Float64 → Int) (client : Client σ) (body : Json) (s : σ) :
    (∀ event customFields, Unmarshal body = .ok event →
      extractCustomFields body = .ok customFields →
      webhookHandler Unmarshal impl client body s
        = handleEvent impl client (event.withCustomFields customFields) s) ∧
    (∀ err, Unmarshal body = .error err →
      webhookHandler Unmarshal impl client body s = ⟨[], .error (.err err), s⟩) ∧
    (∀ event p, Unmarshal body = .ok event → extractCustomFields body = .error p →
      webhookHandler Unmarshal impl client body s = ⟨[], .error p, s⟩) := by
  refine ⟨?_, ?_, ?_⟩
  · intro event customFields hu hx
    simp only [webhookHandler, hu, hx]
  · intro err hu
    simp only [webhookHandler, hu]
  · intro event p hu hx
    simp only [webhookHandler, hu, hx]

/-- C1: the handler runs the reconciliation workflow exactly when the event
type is "issue_created" and the description contains "@bot subtract"
(compared character by character); otherwise, in particular for an empty
description or the event type "issue_updated", it returns normally without any
tracker call and leaves the tracker as it was. -/
theorem handleEvent_runs_workflow_iff {σ : Type} (impl : Float64 → Int) (client : Client σ)
    (event : Event) (s : σ) :
    (handleEvent impl client event s = reconcile impl client event s ↔
      (event.IssueEventTypeName = "issue_created" ∧
        "@bot subtract".data <:+: event.Issue.Fields.Description.data)) ∧
    (¬(event.IssueEventTypeName = "issue_created" ∧
        "@bot subtract".data <:+: event.Issue.Fields.Description.data) →
      handleEvent impl client event s = ⟨[], .ok (), s⟩) ∧
    (event.Issue.Fields.Description = "" → handleEvent impl client event s = ⟨[], .ok (), s⟩) ∧
    (event.IssueEventTypeName = "issue_updated" →
      handleEvent impl client event s = ⟨[], .ok (), s⟩) := by
  have hidle : ¬(event.IssueEventTypeName = "issue_created" ∧
        "@bot subtract".data <:+: event.Issue.Fields.Description.data) →
      handleEvent impl client event s = ⟨[], .ok (), s⟩ := by
    intro hn
    unfold handleEvent
    by_cases ht : event.IssueEventTypeName = IssueCreated
    · have hd : Contains event.Issue.Fields.Description "@bot subtract" = false := by
        simp only [Contains, decide_eq_false_iff_not]
        exact fun hd => hn ⟨ht, hd⟩
      simp [ht, hd]
    · simp [ht]
  refine ⟨⟨?_, ?_⟩, hidle, ?_, ?_⟩
  · intro h
    by_contra hn
    exact reconcile_ne_idle impl client event s s (h ▸ hidle hn)
  · rintro ⟨ht, hd⟩
    have hd1 : Contains event.Issue.Fields.Description "@bot subtract" = true := by
      simpa [Contains] using hd
    have ht1 : event.IssueEventTypeName = IssueCreated := ht
    simp [handleEvent, ht1, hd1]
  · intro he
    apply hidle
    rintro ⟨-, hd⟩
    rw [he] at hd
    revert hd
    decide
  · intro hu
    apply hidle
    rintro ⟨ht, -⟩
    rw [hu] at ht
    revert ht
    decide

/-- C9: a triggering event whose custom fields lack a number under
"customfield_10021" (absent, or of another type such as a string) or lack a
string under "customfield_10025" makes the handler panic on the type assertion
before any tracker call: no fetch, no update, no comment, the tracker left as
it was, and no default value used in place of the field. -/
theorem missing_inputs_abort {σ : Type} (impl : Float64 → Int) (client : Client σ)
    (event : Event) (s : σ)
    (htype : event.IssueEventTypeName = IssueCreated)
    (hdesc : Contains event.Issue.Fields.Description "@bot subtract" = true)
    (hbad : (∀ c, event.Issue.Fields.CustomFields "customfield_10021" ≠ some (.float64 c)) ∨
      (∀ k, event.Issue.Fields.CustomFields "customfield_10025" ≠ some (.string k))) :
    handleEvent impl client event s = ⟨[], .error .interfaceConversion, s⟩ := by
  simp only [handleEvent, htype, hdesc, if_true, reconcile]
  rcases hbad with h | h
  · have : assertFloat64 (event.Issue.Fields.CustomFields StoryPoints) = .error .interfaceConversion := by
      unfold assertFloat64
      split
      · next f hf => exact absurd hf (h f)
      · rfl
    simp [this]
  · have : assertString (event.Issue.Fields.CustomFields Epic) = .error .interfaceConversion := by
      unfold assertString
      split
      · next k hk => exact absurd hk (h k)
      · rfl
    split
    · next p hp =>
      unfold assertFloat64 at hp
      split at hp
      · cases hp
      · cases hp; rfl
    · simp [this]

/-- Witness of C9: the sample event with the string "3" as its story points. -/
theorem missing_inputs_abort_witness :
    handleEvent amd64 sampleClient sampleEventStringPoints (Float64.ofInt 8)
      = ⟨[], .error .interfaceConversion, Float64.ofInt 8⟩ :=
  missing_inputs_abort amd64 sampleClient sampleEventStringPoints (Float64.ofInt 8)
    (by decide) (by decide)
    (Or.inl (by
      intro c h
      have h3 : sampleEventStringPoints.Issue.Fields.CustomFields "customfield_10021"
          = some (.string "3") := by decide
      rw [h3] at h
      cases h))

/-- C7: for a triggering event with valid inputs, when the fetch of the parent
fails (the client returns an error, or the fetched issue carries no number
under "customfield_10021"), the handler panics having made the fetch call
only: neither the update nor the comment call is made. -/
theorem fetch_failure_aborts {σ : Type} (impl : Float64 → Int) (client : Client σ)
    (event : Event) (s : σ) (c : Float64) (k : String)
    (htype : event.IssueEventTypeName = IssueCreated)
    (hdesc : Contains event.Issue.Fields.Description "@bot subtract" = true)
    (hc : event.Issue.Fields.CustomFields "customfield_10021" = some (.float64 c))
    (hk : event.Issue.Fields.CustomFields "customfield_10025" = some (.string k))
    (hfail : (∃ err, (client.Get k s).1 = .error err) ∨
      (∃ epic, (client.Get k s).1 = .ok epic ∧
        ∀ fields p, epic.Fields = some fields →
          fields.Unknowns "customfield_10021" ≠ some (.float64 p))) :
    (handleEvent impl client event s).calls = [.Get k] ∧
    (∃ p, (handleEvent impl client event s).result = .error p) ∧
    (handleEvent impl client event s).tracker = (client.Get k s).2 := by
  have hc1 : event.Issue.Fields.CustomFields StoryPoints = some (.float64 c) := hc
  have hk1 : event.Issue.Fields.CustomFields Epic = some (.string k) := hk
  simp only [handleEvent, htype, hdesc, if_true, reconcile, hc1, hk1, assertFloat64, assertString]
  rcases hget : client.Get k s with ⟨r, s1⟩
  rw [hget] at hfail
  rcases hfail with ⟨err, he⟩ | ⟨epic, he, hno⟩
  · simp only at he
    subst he
    exact ⟨rfl, ⟨_, rfl⟩, rfl⟩
  · simp only at he
    subst he
    simp only
    split
    · exact ⟨rfl, ⟨_, rfl⟩, rfl⟩
    · next fields hf =>
      split
      · exact ⟨rfl, ⟨_, rfl⟩, rfl⟩
      · next p hp =>
        exfalso
        split at hp
        · next f hf2 =>
          exact hno fields f hf hf2
        · cases hp

/-- Witness of C7: the sample event against a tracker that knows no issue. -/
theorem fetch_failure_aborts_witness :
    (handleEvent amd64 notFoundClient sampleEvent (Float64.ofInt 8)).calls = [.Get "EPIC-1"] ∧
    (∃ p, (handleEvent amd64 notFoundClient sampleEvent (Float64.ofInt 8)).result = .error p) ∧
    (handleEvent amd64 notFoundClient sampleEvent (Float64.ofInt 8)).tracker
      = (notFoundClient.Get "EPIC-1" (Float64.ofInt 8)).2 :=
  fetch_failure_aborts amd64 notFoundClient sampleEvent (Float64.ofInt 8) (Float64.ofInt 3)
    "EPIC-1" (by decide) (by decide) (by decide) (by decide) (Or.inl ⟨⟨"404 Not Found"⟩, rfl⟩)


/-- C8: for a triggering event with valid inputs and a successful fetch of the
parent, when the update call on the parent returns an error the handler panics
having made the fetch and the update call only: no comment is added. -/
theorem update_failure_aborts {σ : Type} (impl : Float64 → Int) (client : Client σ)
    (event : Event) (s s1 : σ) (c p : Float64) (k : String) (epic : jira.Issue)
    (fields : jira.IssueFields) (err : Error)
    (htype : event.IssueEventTypeName = IssueCreated)
    (hdesc : Contains event.Issue.Fields.Description "@bot subtract" = true)
    (hc : event.Issue.Fields.CustomFields "customfield_10021" = some (.float64 c))
    (hk : event.Issue.Fields.CustomFields "customfield_10025" = some (.string k))
    (hget : client.Get k s = (.ok epic, s1))
    (hfields : epic.Fields = some fields)
    (hp : fields.Unknowns "customfield_10021" = some (.float64 p))
    (hupdate : (client.UpdateIssue k [("fields", [("customfield_10021", .float64 (p.sub c))])] s1).1
      = .error err) :
    (handleEvent impl client event s).calls
      = [.Get k, .UpdateIssue k [("fields", [("customfield_10021", .float64 (p.sub c))])]] ∧
    (handleEvent impl client event s).result = .error (.err err) := by
  have hc1 : event.Issue.Fields.CustomFields StoryPoints = some (.float64 c) := hc
  have hk1 : event.Issue.Fields.CustomFields Epic = some (.string k) := hk
  have hp1 : fields.Unknowns StoryPoints = some (.float64 p) := hp
  rcases hu : client.UpdateIssue k [("fields", [(StoryPoints, .float64 (p.sub c))])] s1 with ⟨r, s2⟩
  have hu1 : r = .error err := by
    have := hupdate
    rw [show ("customfield_10021" : String) = StoryPoints from rfl, hu] at this
    exact this
  subst hu1
  have h : handleEvent impl client event s =
      ⟨[.Get k, .UpdateIssue k [("fields", [(StoryPoints, .float64 (p.sub c))])]],
        .error (.err err), s2⟩ := by
    simp only [handleEvent, htype, hdesc, if_true, reconcile, hc1, hk1, assertFloat64,
      assertString, hget, hfields, hp1, hu]
  rw [h]
  exact ⟨rfl, rfl⟩

/-- Witness of C8: the sample event against a tracker that refuses updates. -/
theorem update_failure_aborts_witness :
    (handleEvent amd64 readOnlyClient sampleEvent (Float64.ofInt 8)).calls
      = [.Get "EPIC-1", .UpdateIssue "EPIC-1"
          [("fields", [("customfield_10021",
            .float64 ((Float64.ofInt 8).sub (Float64.ofInt 3)))])]] ∧
    (handleEvent amd64 readOnlyClient sampleEvent (Float64.ofInt 8)).result
      = .error (.err ⟨"403 Forbidden"⟩) :=
  update_failure_aborts amd64 readOnlyClient sampleEvent (Float64.ofInt 8) (Float64.ofInt 8)
    (Float64.ofInt 3) (Float64.ofInt 8) "EPIC-1"
    { ID := "10001", Key := "EPIC-1",
      Fields := some { Unknowns := GoMap.empty.set StoryPoints (.float64 (Float64.ofInt 8)) } }
    { Unknowns := GoMap.empty.set StoryPoints (.float64 (Float64.ofInt 8)) }
    ⟨"403 Forbidden"⟩ (by decide) (by decide) (by decide) (by decide) rfl rfl (by decide) rfl

/-- C10: for a triggering event with valid inputs, when all three tracker calls
succeed the handler makes exactly these calls, in this order: the fetch of the
parent named by the child's "customfield_10025"; the update of that same
parent with a request whose "fields" map has the single entry
"customfield_10021", set to the parent's points minus the child's; the comment
addressed to the child's own key. It then returns normally. -/
theorem reconcile_call_sequence {σ : Type} (impl : Float64 → Int) (client : Client σ)
    (event : Event) (s s1 s2 s3 : σ) (c p : Float64) (k : String) (epic : jira.Issue)
    (fields : jira.IssueFields) (res : jira.Response) (posted : jira.Comment)
    (htype : event.IssueEventTypeName = IssueCreated)
    (hdesc : Contains event.Issue.Fields.Description "@bot subtract" = true)
    (hc : event.Issue.Fields.CustomFields "customfield_10021" = some (.float64 c))
    (hk : event.Issue.Fields.CustomFields "customfield_10025" = some (.string k))
    (hget : client.Get k s = (.ok epic, s1))
    (hfields : epic.Fields = some fields)
    (hp : fields.Unknowns "customfield_10021" = some (.float64 p))
    (hupdate : client.UpdateIssue k [("fields", [("customfield_10021", .float64 (p.sub c))])] s1
      = (.ok res, s2))
    (hcomment : client.AddComment event.Issue.Key
      { Body := commentBody impl c k (p.sub c) } s2 = (.ok posted, s3)) :
    handleEvent impl client event s =
      ⟨[.Get k,
        .UpdateIssue k [("fields", [("customfield_10021", .float64 (p.sub c))])],
        .AddComment event.Issue.Key { Body := commentBody impl c k (p.sub c) }],
       .ok (), s3⟩ := by
  have hc1 : event.Issue.Fields.CustomFields StoryPoints = some (.float64 c) := hc
  have hk1 : event.Issue.Fields.CustomFields Epic = some (.string k) := hk
  have hp1 : fields.Unknowns StoryPoints = some (.float64 p) := hp
  have hu1 : client.UpdateIssue k [("fields", [(StoryPoints, .float64 (p.sub c))])] s1
      = (.ok res, s2) := hupdate
  simp only [handleEvent, htype, hdesc, if_true, reconcile, hc1, hk1, assertFloat64, assertString,
    hget, hfields, hp1, hu1, hcomment]
  rfl

/-- Witness of C10: the sample event (3 points, epic EPIC-1, key PROJ-7)
against a tracker whose epic holds 8 points. -/
theorem reconcile_call_sequence_witness :
    handleEvent amd64 sampleClient sampleEvent (Float64.ofInt 8) =
      ⟨[.Get "EPIC-1",
        .UpdateIssue "EPIC-1"
          [("fields", [("customfield_10021",
            .float64 ((Float64.ofInt 8).sub (Float64.ofInt 3)))])],
        .AddComment sampleEvent.Issue.Key
          { Body := commentBody amd64 (Float64.ofInt 3) "EPIC-1"
              ((Float64.ofInt 8).sub (Float64.ofInt 3)) }],
       .ok (), Float64.ofInt 5⟩ :=
  reconcile_call_sequence amd64 sampleClient sampleEvent (Float64.ofInt 8) (Float64.ofInt 8)
    (Float64.ofInt 5) (Float64.ofInt 5) (Float64.ofInt 3) (Float64.ofInt 8) "EPIC-1"
    { ID := "10001", Key := "EPIC-1",
      Fields := some { Unknowns := GoMap.empty.set StoryPoints (.float64 (Float64.ofInt 8)) } }
    { Unknowns := GoMap.empty.set StoryPoints (.float64 (Float64.ofInt 8)) }
    { StatusCode := 204 }
    { ID := "1", Body := commentBody amd64 (Float64.ofInt 3) "EPIC-1"
        ((Float64.ofInt 8).sub (Float64.ofInt 3)) }
    (by decide) (by decide) (by decide) (by decide) rfl rfl (by decide) (by decide) rfl

/-- C5: for every child point value `c` and parent point value `p`, the value
the workflow computes and places in the update request is `p - c` (the
`float64` subtraction), whatever its sign: nothing is clamped and no result is
rejected. On integer point values below `2^53` in magnitude that subtraction
is the subtraction of integers; with c = 3 and p = 8 it is 5, with c = 10 and
p = 4 it is -6. -/
theorem new_epic_points_eq_sub {σ : Type} (impl : Float64 → Int) (client : Client σ)
    (event : Event) (s s1 : σ) (c p : Float64) (k : String) (epic : jira.Issue)
    (fields : jira.IssueFields)
    (htype : event.IssueEventTypeName = IssueCreated)
    (hdesc : Contains event.Issue.Fields.Description "@bot subtract" = true)
    (hc : event.Issue.Fields.CustomFields "customfield_10021" = some (.float64 c))
    (hk : event.Issue.Fields.CustomFields "customfield_10025" = some (.string k))
    (hget : client.Get k s = (.ok epic, s1))
    (hfields : epic.Fields = some fields)
    (hp : fields.Unknowns "customfield_10021" = some (.float64 p)) :
    (handleEvent impl client event s).calls[1]?
      = some (.UpdateIssue k [("fields", [("customfield_10021", .float64 (p.sub c))])]) ∧
    (∀ a b : Int, a.natAbs < 2 ^ 53 → b.natAbs < 2 ^ 53 → (b - a).natAbs < 2 ^ 53 →
      (Float64.ofInt b).sub (Float64.ofInt a) = Float64.ofInt (b - a)) ∧
    (Float64.ofInt 8).sub (Float64.ofInt 3) = Float64.ofInt 5 ∧
    (Float64.ofInt 4).sub (Float64.ofInt 10) = Float64.ofInt (-6) := by
  have hc1 : event.Issue.Fields.CustomFields StoryPoints = some (.float64 c) := hc
  have hk1 : event.Issue.Fields.CustomFields Epic = some (.string k) := hk
  have hp1 : fields.Unknowns StoryPoints = some (.float64 p) := hp
  refine ⟨?_, fun a b ha hb hab => Float64.sub_ofInt b a hb ha hab, by decide, by decide⟩
  simp only [handleEvent, htype, hdesc, if_true, reconcile, hc1, hk1, assertFloat64, assertString,
    hget, hfields, hp1]
  split
  · rfl
  · split <;> rfl


/-- Witness of C5: the sample event (3 points) against an epic holding 1
point: the update request carries -2. -/
theorem new_epic_points_eq_sub_witness :
    (handleEvent amd64 sampleClient sampleEvent (Float64.ofInt 1)).calls[1]?
      = some (.UpdateIssue "EPIC-1"
          [("fields", [("customfield_10021", .float64 (Float64.ofInt (-2)))])]) := by
  have h := (new_epic_points_eq_sub amd64 sampleClient sampleEvent (Float64.ofInt 1)
    (Float64.ofInt 1) (Float64.ofInt 3) (Float64.ofInt 1) "EPIC-1"
    { ID := "10001", Key := "EPIC-1",
      Fields := some { Unknowns := GoMap.empty.set StoryPoints (.float64 (Float64.ofInt 1)) } }
    { Unknowns := GoMap.empty.set StoryPoints (.float64 (Float64.ofInt 1)) }
    (by decide) (by decide) (by decide) (by decide) rfl rfl (by decide)).1
  have hs : (Float64.ofInt 1).sub (Float64.ofInt 3) = Float64.ofInt (-2) := by decide
  rw [hs] at h
  exact h

/-! ## The comment text -/

theorem toInt_of_trunc (impl : Float64 → Int) (f : Float64) (t : Int)
    (ht : f.trunc = some t) (hr : minInt ≤ t ∧ t ≤ maxInt) : f.toInt impl = t := by
  simp [Float64.toInt, ht, hr]

theorem toInt_range (impl : Float64 → Int) (f : Float64) :
    minInt ≤ f.toInt impl ∧ f.toInt impl ≤ maxInt := by
  have hw : ∀ i : Int, minInt ≤ wrapInt i ∧ wrapInt i ≤ maxInt := by
    intro i
    simp only [wrapInt, minInt, maxInt]
    omega
  unfold Float64.toInt
  split
  · split
    · assumption
    · exact hw _
  · exact hw _

theorem toString_int_ne_twenty_digits (x : Int) (hx : x ≤ maxInt) :
    toString x ≠ "10000000000000000000" := by
  intro h
  cases x with
  | ofNat n =>
    have hn : n < 10 ^ 19 := by
      simp only [maxInt, Int.ofNat_eq_coe] at hx
      omega
    have hlen := Nat.repr_length n 19 (by decide) hn
    have h2 : (Nat.repr n) = "10000000000000000000" := h
    rw [h2] at hlen
    revert hlen
    decide
  | negSucc n =>
    have h2 : ("-" ++ toString (n + 1) : String) = "10000000000000000000" := h
    have h3 := congrArg String.data h2
    rw [String.data_append] at h3
    have h4 := congrArg List.head? h3
    simp at h4

/-- C6, as amended: for every child point value `c` and new parent point value
`n` whose integer parts (truncation toward zero) lie within the range of
`int`, and every parent reference `k`, the comment body is exactly
"subtracted <C> story points from epic <k>. the epic has <N> story points
left." with <C> and <N> the decimal renderings of those integer parts (for
integer point values below `2^53` in magnitude, the renderings of these
integers); for c = 3, k = "EPIC-1", n = 5 it is "subtracted 3 story points
from epic EPIC-1. the epic has 5 story points left." -/
theorem commentBody_of_trunc (impl : Float64 → Int) (c n : Float64) (k : String) (tc tn : Int)
    (hc : c.trunc = some tc) (hcr : minInt ≤ tc ∧ tc ≤ maxInt)
    (hn : n.trunc = some tn) (hnr : minInt ≤ tn ∧ tn ≤ maxInt) :
    commentBody impl c k n =
      "subtracted " ++ toString tc ++ " story points from epic " ++ k ++ ". the epic has "
        ++ toString tn ++ " story points left." ∧
    (∀ a b : Int, a.natAbs < 2 ^ 53 → b.natAbs < 2 ^ 53 →
      commentBody impl (Float64.ofInt a) k (Float64.ofInt b) =
        "subtracted " ++ toString a ++ " story points from epic " ++ k ++ ". the epic has "
          ++ toString b ++ " story points left.") ∧
    commentBody impl (Float64.ofInt 3) "EPIC-1" (Float64.ofInt 5) =
      "subtracted 3 story points from epic EPIC-1. the epic has 5 story points left." := by
  refine ⟨?_, ?_, ?_⟩
  · simp only [commentBody, toInt_of_trunc impl c tc hc hcr, toInt_of_trunc impl n tn hn hnr]
  · intro a b ha hb
    have hra : minInt ≤ a ∧ a ≤ maxInt := by
      simp only [minInt, maxInt]
      omega
    have hrb : minInt ≤ b ∧ b ≤ maxInt := by
      simp only [minInt, maxInt]
      omega
    simp only [commentBody, toInt_of_trunc impl _ a (Float64.trunc_ofInt a ha) hra,
      toInt_of_trunc impl _ b (Float64.trunc_ofInt b hb) hrb]
  · have h3 := toInt_of_trunc impl (Float64.ofInt 3) 3 (by decide) (by decide)
    have h5 := toInt_of_trunc impl (Float64.ofInt 5) 5 (by decide) (by decide)
    simp only [commentBody, h3, h5]
    decide

/-- Witness of C6 as amended: 6.5 points subtracted from the epic EPIC-1,
leaving -6.5 points. -/
theorem commentBody_of_trunc_witness :
    commentBody amd64 (Float64.round false 65 10) "EPIC-1" (Float64.round true 65 10) =
      "subtracted " ++ toString (6 : Int) ++ " story points from epic " ++ "EPIC-1"
        ++ ". the epic has " ++ toString (-6 : Int) ++ " story points left." ∧
    (∀ a b : Int, a.natAbs < 2 ^ 53 → b.natAbs < 2 ^ 53 →
      commentBody amd64 (Float64.ofInt a) "EPIC-1" (Float64.ofInt b) =
        "subtracted " ++ toString a ++ " story points from epic " ++ "EPIC-1"
          ++ ". the epic has " ++ toString b ++ " story points left.") ∧
    commentBody amd64 (Float64.ofInt 3) "EPIC-1" (Float64.ofInt 5) =
      "subtracted 3 story points from epic EPIC-1. the epic has 5 story points left." :=
  commentBody_of_trunc amd64 (Float64.round false 65 10) (Float64.round true 65 10) "EPIC-1"
    6 (-6) (by decide) (by decide) (by decide) (by decide)

/-- Counterexample to C6 as stated: the payload number 1e19 parses to a child
point value whose integer part, 10000000000000000000, is beyond the range of
`int`. For the sample event with these points and an epic holding as many,
the new parent points are 0, and whatever the platform yields for the
conversion, the comment the handler adds is not the one with the decimal
rendering of that integer part. -/
theorem commentBody_out_of_range :
    ParseFloat (.num ⟨false, 1, 19⟩) = .ok tenToThe19 ∧
    tenToThe19.trunc = some 10000000000000000000 ∧
    (tenToThe19.sub tenToThe19).trunc = some 0 ∧
    ¬ ∃ impl : Float64 → Int,
      (handleEvent impl sampleClient sampleEventHugePoints tenToThe19).calls[2]? =
        some (.AddComment "PROJ-7" { Body :=
          "subtracted 10000000000000000000 story points from epic EPIC-1. the epic has 0 story points left." }) := by
  refine ⟨by decide, by decide, by decide!, ?_⟩
  rintro ⟨impl, h⟩
  have hupdate : sampleClient.UpdateIssue "EPIC-1"
      [("fields", [(StoryPoints, .float64 (tenToThe19.sub tenToThe19))])] tenToThe19
        = (.ok { StatusCode := 204 }, tenToThe19.sub tenToThe19) := by decide
  have hcall := handleEvent_after_fetch impl sampleClient sampleEventHugePoints tenToThe19
    tenToThe19 tenToThe19 tenToThe19 "EPIC-1"
    { ID := "10001", Key := "EPIC-1",
      Fields := some { Unknowns := GoMap.empty.set StoryPoints (.float64 tenToThe19) } }
    { Unknowns := GoMap.empty.set StoryPoints (.float64 tenToThe19) }
    (by decide) (by decide) (by decide) (by decide) rfl rfl (by decide)
  rw [hupdate] at hcall
  rw [hcall] at h
  have h : commentBody impl tenToThe19 "EPIC-1" (tenToThe19.sub tenToThe19) =
      "subtracted 10000000000000000000 story points from epic EPIC-1. the epic has 0 story points left." := by
    simp only [sampleClient, List.getElem?_cons_succ, List.getElem?_cons_zero, Option.some.injEq,
      Call.AddComment.injEq, jira.Comment.mk.injEq] at h
    exact h.2.2.2
  have h0 := toInt_of_trunc impl (tenToThe19.sub tenToThe19) 0 (by decide!) (by decide)
  have hx := (toInt_range impl tenToThe19).2
  simp only [commentBody, h0] at h
  generalize tenToThe19.toInt impl = x at h hx
  apply toString_int_ne_twenty_digits x hx
  have hsplit : ("subtracted 10000000000000000000 story points from epic EPIC-1. the epic has 0 story points left." : String)
      = "subtracted " ++ "10000000000000000000" ++ " story points from epic " ++ "EPIC-1"
        ++ ". the epic has " ++ toString (0 : Int) ++ " story points left." := by decide
  rw [hsplit] at h
  have hd := congrArg String.data h
  simp only [String.data_append] at hd
  have hd2 := List.append_cancel_left (List.append_cancel_right (List.append_cancel_right
    (List.append_cancel_right (List.append_cancel_right (List.append_cancel_right hd)))))
  exact String.ext hd2

/-! ## The extraction of custom fields -/

theorem callback_without_custom_name (key : String) (value : Json) (dataType : ValueType)
    (acc : GoMap) (h : HasPrefix key "customfield_" = false) :
    customFieldCallback key value dataType acc = .ok acc := by
  simp [customFieldCallback, h]

theorem callback_not_scalar (key : String) (value : Json) (acc : GoMap)
    (h : value.isScalar = false) :
    customFieldCallback key value value.valueType acc = .ok acc := by
  cases value <;> simp [Json.isScalar] at h <;> simp [customFieldCallback, Json.valueType]

theorem callback_num (key : String) (n : JsonNumber) (acc : GoMap)
    (h : HasPrefix key "customfield_" = true) :
    customFieldCallback key (.num n) (Json.num n).valueType acc =
      match ParseFloat (.num n) with
      | .error err => .error (.err err)
      | .ok float => .ok (acc.set key (.float64 float)) := by
  simp [customFieldCallback, Json.valueType, h]

theorem callback_str (key : String) (raw : String) (acc : GoMap)
    (h : HasPrefix key "customfield_" = true) :
    customFieldCallback key (.str raw) (Json.str raw).valueType acc =
      match ParseString (.str raw) with
      | .error err => .error (.err err)
      | .ok s => .ok (acc.set key (.string s)) := by
  simp [customFieldCallback, Json.valueType, h]

/-- What a returning call of the callback did to the map. -/
theorem callback_ok_cases (key : String) (value : Json) (acc acc1 : GoMap)
    (h : customFieldCallback key value value.valueType acc = .ok acc1) :
    (HasPrefix key "customfield_" = true ∧
      ∃ n f, value = .num n ∧ ParseFloat value = .ok f ∧ acc1 = acc.set key (.float64 f)) ∨
    (HasPrefix key "customfield_" = true ∧
      ∃ raw s, value = .str raw ∧ ParseString value = .ok s ∧ acc1 = acc.set key (.string s)) ∨
    ((HasPrefix key "customfield_" = false ∨ value.isScalar = false) ∧ acc1 = acc) := by
  by_cases hp : HasPrefix key "customfield_" = true
  · cases value with
    | num n =>
      rw [callback_num key n acc hp] at h
      cases hf : ParseFloat (.num n) with
      | error e => rw [hf] at h; cases h
      | ok f =>
        rw [hf] at h
        injection h with h
        exact Or.inl ⟨hp, n, f, rfl, rfl, h.symm⟩
    | str raw =>
      rw [callback_str key raw acc hp] at h
      cases hf : ParseString (.str raw) with
      | error e => rw [hf] at h; cases h
      | ok s =>
        rw [hf] at h
        injection h with h
        exact Or.inr (Or.inl ⟨hp, raw, s, rfl, rfl, h.symm⟩)
    | null =>
      rw [callback_not_scalar key .null acc rfl] at h
      injection h with h
      exact Or.inr (Or.inr ⟨Or.inr rfl, h.symm⟩)
    | bool b =>
      rw [callback_not_scalar key (.bool b) acc rfl] at h
      injection h with h
      exact Or.inr (Or.inr ⟨Or.inr rfl, h.symm⟩)
    | arr xs =>
      rw [callback_not_scalar key (.arr xs) acc rfl] at h
      injection h with h
      exact Or.inr (Or.inr ⟨Or.inr rfl, h.symm⟩)
    | obj ms =>
      rw [callback_not_scalar key (.obj ms) acc rfl] at h
      injection h with h
      exact Or.inr (Or.inr ⟨Or.inr rfl, h.symm⟩)
  · have hp1 : HasPrefix key "customfield_" = false := by simpa using hp
    rw [callback_without_custom_name _ _ _ _ hp1] at h
    injection h with h
    exact Or.inr (Or.inr ⟨Or.inl hp1, h.symm⟩)

/-- The callback returns exactly on the values that decode. -/
theorem callback_ok_iff (key : String) (value : Json) (acc : GoMap) :
    (∃ acc1, customFieldCallback key value value.valueType acc = .ok acc1) ↔
      (!HasPrefix key "customfield_" || decodes value) = true := by
  by_cases hp : HasPrefix key "customfield_" = true
  · cases value with
    | num n =>
      rw [callback_num key n acc hp]
      cases hf : ParseFloat (.num n) <;> simp [decodes, hp, hf, Except.toBool]
    | str raw =>
      rw [callback_str key raw acc hp]
      cases hf : ParseString (.str raw) <;> simp [decodes, hp, hf, Except.toBool]
    | null => simp [callback_not_scalar _ _ _ (rfl : Json.null.isScalar = false), decodes]
    | bool b => simp [callback_not_scalar _ _ _ (rfl : (Json.bool b).isScalar = false), decodes]
    | arr xs => simp [callback_not_scalar _ _ _ (rfl : (Json.arr xs).isScalar = false), decodes]
    | obj ms => simp [callback_not_scalar _ _ _ (rfl : (Json.obj ms).isScalar = false), decodes]
  · have hp1 : HasPrefix key "customfield_" = false := by simpa using hp
    simp [callback_without_custom_name _ _ _ _ hp1, hp1]

/-- The loop returns exactly when every custom-field member decodes. -/
theorem eachMember_ok_iff (members : List (String × Json)) (acc : GoMap) :
    (∃ m, eachMember customFieldCallback members acc = .ok m) ↔ allDecode members = true := by
  induction members generalizing acc with
  | nil => simp [eachMember, allDecode]
  | cons kv rest ih =>
    obtain ⟨key, value⟩ := kv
    have hall : allDecode ((key, value) :: rest) =
        ((!HasPrefix key "customfield_" || decodes value) && allDecode rest) := by
      simp [allDecode]
    rw [hall, Bool.and_eq_true, ← callback_ok_iff key value acc]
    constructor
    · rintro ⟨m, hm⟩
      simp only [eachMember] at hm
      cases hcb : customFieldCallback key value value.valueType acc with
      | error p => rw [hcb] at hm; cases hm
      | ok acc1 =>
        rw [hcb] at hm
        exact ⟨⟨acc1, rfl⟩, (ih acc1).mp ⟨m, hm⟩⟩
    · rintro ⟨⟨acc1, hcb⟩, hrest⟩
      obtain ⟨m, hm⟩ := (ih acc1).mpr hrest
      exact ⟨m, by simp only [eachMember, hcb, hm]⟩

/-- A key keeps its entry through the loop when no member of that name is a
custom field holding a number or a string. -/
theorem eachMember_frame (members : List (String × Json)) (acc m : GoMap) (k : String)
    (h : eachMember customFieldCallback members acc = .ok m)
    (hk : ∀ v, (k, v) ∈ members → HasPrefix k "customfield_" = false ∨ v.isScalar = false) :
    m k = acc k := by
  induction members generalizing acc with
  | nil =>
    simp only [eachMember] at h
    injection h with h
    rw [h]
  | cons kv rest ih =>
    obtain ⟨key, value⟩ := kv
    simp only [eachMember] at h
    cases hcb : customFieldCallback key value value.valueType acc with
    | error p => rw [hcb] at h; cases h
    | ok acc1 =>
      rw [hcb] at h
      have hrest := ih acc1 h (fun v hv => hk v (List.mem_cons_of_mem _ hv))
      rw [hrest]
      rcases callback_ok_cases key value acc acc1 hcb with
        ⟨hp, n, f, hv, -, hacc⟩ | ⟨hp, raw, s, hv, -, hacc⟩ | ⟨-, hacc⟩
      · subst hacc
        by_cases hkey : k = key
        · subst hkey
          rcases hk value (List.mem_cons_self _ _) with h1 | h1
          · rw [hp] at h1; cases h1
          · rw [hv] at h1; cases h1
        · simp [GoMap.set, hkey]
      · subst hacc
        by_cases hkey : k = key
        · subst hkey
          rcases hk value (List.mem_cons_self _ _) with h1 | h1
          · rw [hp] at h1; cases h1
          · rw [hv] at h1; cases h1
        · simp [GoMap.set, hkey]
      · rw [hacc]


/-- The callback assigns to no key but the one it is called with. -/
theorem callback_other_key (key : String) (value : Json) (acc acc1 : GoMap) (k : String)
    (h : customFieldCallback key value value.valueType acc = .ok acc1) (hk : k ≠ key) :
    acc1 k = acc k := by
  rcases callback_ok_cases key value acc acc1 h with
    ⟨-, n, f, -, -, hacc⟩ | ⟨-, raw, s, -, -, hacc⟩ | ⟨-, hacc⟩
  · simp [hacc, GoMap.set, hk]
  · simp [hacc, GoMap.set, hk]
  · rw [hacc]

/-- When every member named `k` holds the value `v`, and a returning call of
the callback on `k` and `v` leaves `val` under `k`, the loop ends with `val`
under `k`, provided it meets such a member or started with `val` there. -/
theorem eachMember_value (members : List (String × Json)) (acc m : GoMap) (k : String)
    (v : Json) (val : Value) (h : eachMember customFieldCallback members acc = .ok m)
    (hfun : ∀ v1, (k, v1) ∈ members → v1 = v)
    (hdec : ∀ acc0 acc1, customFieldCallback k v v.valueType acc0 = .ok acc1 →
      acc1 k = some val)
    (hstart : (k, v) ∈ members ∨ acc k = some val) : m k = some val := by
  induction members generalizing acc with
  | nil =>
    simp only [eachMember] at h
    injection h with h
    rcases hstart with hmem | hacc
    · cases hmem
    · rw [← h, hacc]
  | cons kv rest ih =>
    obtain ⟨key, value⟩ := kv
    simp only [eachMember] at h
    cases hcb : customFieldCallback key value value.valueType acc with
    | error p => rw [hcb] at h; cases h
    | ok acc1 =>
      rw [hcb] at h
      apply ih acc1 h (fun v1 hv1 => hfun v1 (List.mem_cons_of_mem _ hv1))
      by_cases hkey : k = key
      · subst hkey
        have hv : value = v := hfun value (List.mem_cons_self _ _)
        subst hv
        exact Or.inr (hdec acc acc1 hcb)
      · rcases hstart with hmem | hacc
        · rcases List.mem_cons.mp hmem with heq | hin
          · injection heq with h1 _
            exact absurd h1 hkey
          · exact Or.inl hin
        · exact Or.inr (by rw [callback_other_key key value acc acc1 k hcb hkey, hacc])

/-- The keys of the map after the loop: those it held before and the names of
the custom-field members holding a number or a string. -/
theorem eachMember_isSome (members : List (String × Json)) (acc m : GoMap) (k : String)
    (h : eachMember customFieldCallback members acc = .ok m) :
    (m k).isSome = true ↔
      ((acc k).isSome = true ∨
        (HasPrefix k "customfield_" = true ∧ ∃ v, (k, v) ∈ members ∧ v.isScalar = true)) := by
  induction members generalizing acc with
  | nil =>
    simp only [eachMember] at h
    injection h with h
    simp [h]
  | cons kv rest ih =>
    obtain ⟨key, value⟩ := kv
    simp only [eachMember] at h
    cases hcb : customFieldCallback key value value.valueType acc with
    | error p => rw [hcb] at h; cases h
    | ok acc1 =>
      rw [hcb] at h
      rw [ih acc1 h]
      have hset : ∀ val, value.isScalar = true → HasPrefix key "customfield_" = true →
          acc1 = acc.set key val →
          (((acc1 k).isSome = true ∨
            (HasPrefix k "customfield_" = true ∧ ∃ v, (k, v) ∈ rest ∧ v.isScalar = true)) ↔
          ((acc k).isSome = true ∨
            (HasPrefix k "customfield_" = true ∧
              ∃ v, (k, v) ∈ (key, value) :: rest ∧ v.isScalar = true))) := by
        intro val hsc hp hacc
        subst hacc
        by_cases hkey : k = key
        · subst hkey
          constructor
          · intro _
            exact Or.inr ⟨hp, value, List.mem_cons_self _ _, hsc⟩
          · intro _
            exact Or.inl (by simp [GoMap.set])
        · have hk1 : (acc.set key val) k = acc k := by simp [GoMap.set, hkey]
          rw [hk1]
          constructor
          · rintro (h1 | ⟨h1, v, hv, hs⟩)
            · exact Or.inl h1
            · exact Or.inr ⟨h1, v, List.mem_cons_of_mem _ hv, hs⟩
          · rintro (h1 | ⟨h1, v, hv, hs⟩)
            · exact Or.inl h1
            · rcases List.mem_cons.mp hv with heq | hin
              · injection heq with hk _
                exact absurd hk hkey
              · exact Or.inr ⟨h1, v, hin, hs⟩
      rcases callback_ok_cases key value acc acc1 hcb with
        ⟨hp, n, f, hv, -, hacc⟩ | ⟨hp, raw, s, hv, -, hacc⟩ | ⟨hno, hacc⟩
      · exact hset _ (by rw [hv]; rfl) hp hacc
      · exact hset _ (by rw [hv]; rfl) hp hacc
      · subst hacc
        constructor
        · rintro (h1 | ⟨h1, v, hv, hs⟩)
          · exact Or.inl h1
          · exact Or.inr ⟨h1, v, List.mem_cons_of_mem _ hv, hs⟩
        · rintro (h1 | ⟨h1, v, hv, hs⟩)
          · exact Or.inl h1
          · rcases List.mem_cons.mp hv with heq | hin
            · injection heq with hk hv1
              subst hk
              subst hv1
              rcases hno with h2 | h2
              · rw [h1] at h2; cases h2
              · rw [hs] at h2; cases h2
            · exact Or.inr ⟨h1, v, hin, hs⟩


/-! ## The key search -/

theorem searchMembers_last_sound (key : String) (descend : Json → Option Json)
    (ms : List (String × Json)) (v : Json)
    (h : searchMembers key true descend ms = some v) : (key, v) ∈ ms := by
  induction ms with
  | nil => simp [searchMembers] at h
  | cons kv rest ih =>
    obtain ⟨k, v1⟩ := kv
    by_cases hk : k = key
    · subst hk
      simp only [searchMembers, if_true] at h
      injection h with h
      subst h
      exact List.mem_cons_self _ _
    · simp only [searchMembers, hk, if_false] at h
      exact List.mem_cons_of_mem _ (ih h)

theorem searchMembers_inner_sound (key : String) (descend : Json → Option Json)
    (ms : List (String × Json)) (r : Json)
    (h : searchMembers key false descend ms = some r) :
    ∃ im, (key, Json.obj im) ∈ ms ∧ descend (.obj im) = some r := by
  induction ms with
  | nil => simp [searchMembers] at h
  | cons kv rest ih =>
    obtain ⟨k, v1⟩ := kv
    have hrest : searchMembers key false descend rest = some r →
        ∃ im, (key, Json.obj im) ∈ (k, v1) :: rest ∧ descend (.obj im) = some r := by
      intro h1
      obtain ⟨im, him, hd⟩ := ih h1
      exact ⟨im, List.mem_cons_of_mem _ him, hd⟩
    by_cases hk : k = key
    · subst hk
      cases v1 with
      | obj im =>
        simp only [searchMembers, if_true] at h
        cases hd : descend (.obj im) with
        | some found =>
          simp only [hd] at h
          injection h with h
          subst h
          exact ⟨im, List.mem_cons_self _ _, hd⟩
        | none =>
          simp only [hd] at h
          exact hrest h
      | null => simp only [searchMembers, if_true] at h; exact hrest h
      | bool b => simp only [searchMembers, if_true] at h; exact hrest h
      | num n => simp only [searchMembers, if_true] at h; exact hrest h
      | str raw => simp only [searchMembers, if_true] at h; exact hrest h
      | arr xs => simp only [searchMembers, if_true] at h; exact hrest h
    · simp only [searchMembers, hk, if_false] at h
      exact hrest h

theorem searchMembers_last_unique (key : String) (descend : Json → Option Json)
    (ms : List (String × Json)) (v : Json) (hmem : (key, v) ∈ ms)
    (hfun : ∀ v1, (key, v1) ∈ ms → v1 = v) :
    searchMembers key true descend ms = some v := by
  induction ms with
  | nil => cases hmem
  | cons kv rest ih =>
    obtain ⟨k, v1⟩ := kv
    by_cases hk : k = key
    · subst hk
      simp only [searchMembers, if_true]
      rw [hfun v1 (List.mem_cons_self _ _)]
    · simp only [searchMembers, hk, if_false]
      apply ih
      · rcases List.mem_cons.mp hmem with heq | hin
        · injection heq with h1 _
          exact absurd h1.symm hk
        · exact hin
      · exact fun v2 hv2 => hfun v2 (List.mem_cons_of_mem _ hv2)

theorem searchMembers_inner_none (key : String) (descend : Json → Option Json)
    (ms : List (String × Json)) (im : List (String × Json))
    (hfun : ∀ v1, (key, v1) ∈ ms → v1 = Json.obj im) (hd : descend (.obj im) = none) :
    searchMembers key false descend ms = none := by
  induction ms with
  | nil => simp [searchMembers]
  | cons kv rest ih =>
    obtain ⟨k, v1⟩ := kv
    have hrest := ih (fun v2 hv2 => hfun v2 (List.mem_cons_of_mem _ hv2))
    by_cases hk : k = key
    · subst hk
      have hv := hfun v1 (List.mem_cons_self _ _)
      subst hv
      simp [searchMembers, hd, hrest]
    · simp [searchMembers, hk, hrest]

theorem searchMembers_inner_unique (key : String) (descend : Json → Option Json)
    (ms : List (String × Json)) (im : List (String × Json))
    (hmem : (key, Json.obj im) ∈ ms) (hfun : ∀ v1, (key, v1) ∈ ms → v1 = Json.obj im) :
    searchMembers key false descend ms = descend (.obj im) := by
  induction ms with
  | nil => cases hmem
  | cons kv rest ih =>
    obtain ⟨k, v1⟩ := kv
    have hfun1 : ∀ v2, (key, v2) ∈ rest → v2 = Json.obj im :=
      fun v2 hv2 => hfun v2 (List.mem_cons_of_mem _ hv2)
    by_cases hk : k = key
    · subst hk
      have hv := hfun v1 (List.mem_cons_self _ _)
      subst hv
      simp only [searchMembers, if_true]
      cases hd : descend (.obj im) with
      | some found => rfl
      | none => exact searchMembers_inner_none k descend rest im hfun1 hd
    · simp only [searchMembers, hk, if_false]
      apply ih _ hfun1
      rcases List.mem_cons.mp hmem with heq | hin
      · injection heq with h1 _
        exact absurd h1.symm hk
      · exact hin

theorem issueFields_obj (ms : List (String × Json)) :
    issueFields (.obj ms) =
      match searchMembers "issue" false (fun v => searchKeys v ["fields"]) ms with
      | some (.obj members) => members
      | _ => [] := rfl

theorem searchKeys_fields (im : List (String × Json)) :
    searchKeys (.obj im) ["fields"] = searchMembers "fields" true (fun v => searchKeys v []) im :=
  rfl

theorem issueFields_not_obj (body : Json) (h : ∀ ms, body ≠ .obj ms) : issueFields body = [] := by
  cases body with
  | obj ms => exact absurd rfl (h ms)
  | null => rfl
  | bool b => rfl
  | num n => rfl
  | str raw => rfl
  | arr xs => rfl

/-- The members the extraction iterates over are those of an object that is
a member named `fields` of an object that is a member named `issue` of the
body; otherwise there are none. -/
theorem issueFields_sound (body : Json) :
    issueFields body = [] ∨
    ∃ ms im, body = .obj ms ∧ ("issue", Json.obj im) ∈ ms ∧
      ("fields", Json.obj (issueFields body)) ∈ im := by
  cases body with
  | obj ms =>
    rw [issueFields_obj]
    cases hs : searchMembers "issue" false (fun v => searchKeys v ["fields"]) ms with
    | none => exact Or.inl rfl
    | some r =>
      obtain ⟨im, him, hd⟩ := searchMembers_inner_sound _ _ ms r hs
      rw [searchKeys_fields] at hd
      have hr := searchMembers_last_sound _ _ im r hd
      cases r with
      | obj fs => exact Or.inr ⟨ms, im, rfl, him, hr⟩
      | null => exact Or.inl rfl
      | bool b => exact Or.inl rfl
      | num n => exact Or.inl rfl
      | str raw => exact Or.inl rfl
      | arr xs => exact Or.inl rfl
  | null => exact Or.inl rfl
  | bool b => exact Or.inl rfl
  | num n => exact Or.inl rfl
  | str raw => exact Or.inl rfl
  | arr xs => exact Or.inl rfl

/-- On a body whose path `issue`, `fields` is unambiguous the extraction
iterates over the members of that `issue.fields` object. -/
theorem issueFields_of_unique (body : Json) (fs : List (String × Json))
    (h : IsIssueFields body fs) : issueFields body = fs := by
  obtain ⟨ms, im, hbody, hi, hiu, hf, hfu⟩ := h
  subst hbody
  have h1 := searchMembers_inner_unique "issue" (fun v => searchKeys v ["fields"]) ms im hi hiu
  have h2 : searchKeys (.obj im) ["fields"] = some (.obj fs) := by
    rw [searchKeys_fields]
    exact searchMembers_last_unique "fields" _ im (.obj fs) hf hfu
  rw [issueFields_obj, h1]
  show (match searchKeys (.obj im) ["fields"] with
    | some (.obj members) => members
    | _ => []) = fs
  rw [h2]

/-- The key search on bodies with repeated or misplaced path keys. A first
`issue` that does not lead to `fields` is left and the second one found; a
`fields` object at top level, or nested deeper in `issue`, is not found, nor
are the members of `issue` taken for fields; the first member `fields` of
`issue` ends the search even when it is null. -/
theorem issueFields_examples :
    (issueFields duplicateIssueBody).map Prod.fst = ["customfield_10021", "customfield_10025"] ∧
    (issueFields misplacedBody).map Prod.fst = ["customfield_10021", "priority", "labels"] ∧
    (issueFields noIssueBody).map Prod.fst = [] ∧
    (issueFields noFieldsBody).map Prod.fst = [] ∧
    (issueFields nullFieldsBody).map Prod.fst = [] ∧
    (issueFields sampleBody).map Prod.fst =
      ["description", "priority", "customfield_10021", "customfield_10025",
        "customfield_10026", "customfield_10030", "customfield_10031"] := by
  decide

theorem isIssueFields_sampleBody : IsIssueFields sampleBody sampleFields := by
  refine ⟨_, sampleIssue, rfl, ?_, ?_, ?_, ?_⟩
  · simp
  · intro v hv
    simpa using hv
  · simp [sampleIssue]
  · intro v hv
    simpa [sampleIssue] using hv

theorem issueFields_sampleBody : issueFields sampleBody = sampleFields :=
  issueFields_of_unique sampleBody sampleFields isIssueFields_sampleBody

/-! ## String escapes -/

/-- The escape sequences `jsonparser.ParseString` decodes, one by one, and
uses of the backslash it rejects. -/
theorem unescape_examples :
    unescape "plain text".data = some "plain text".data ∧
    unescape ['\\', '"'] = some ['"'] ∧
    unescape ['\\', '\\'] = some ['\\'] ∧
    unescape ['\\', '/'] = some ['/'] ∧
    unescape ['\\', 'b'] = some [Char.ofNat 8] ∧
    unescape ['\\', 'f'] = some [Char.ofNat 12] ∧
    unescape ['\\', 'n'] = some [Char.ofNat 10] ∧
    unescape ['\\', 'r'] = some [Char.ofNat 13] ∧
    unescape ['\\', 't'] = some [Char.ofNat 9] ∧
    unescape "x\\u0041\\u00e9\\u20AC;".data = some "xAé€;".data ∧
    unescape "\\ud83d\\ude00!".data = some [Char.ofNat 0x1F600, '!'] ∧
    unescape "\\ud7ff\\ue000".data = some [Char.ofNat 0xD7FF, Char.ofNat 0xE000] ∧
    unescape "\\ud800\\udc00".data = some [Char.ofNat 0x10000] ∧
    unescape "\\udbff\\udfff".data = some [Char.ofNat 0x10FFFF] ∧
    unescape "\\ud800\\u0041".data = none ∧
    unescape "a\\qb".data = none ∧
    unescape "a\\".data = none ∧
    unescape "\\u12".data = none ∧
    unescape "\\u12G4".data = none ∧
    unescape "\\ud83d".data = none ∧
    unescape "\\ud83dab".data = none := by
  decide

/-! ## Number tokens -/

/-- The function `ParseFloat` on integers, fractions, exponents and signs,
and on numbers beyond the range of `float64`. -/
theorem parseFloat_examples :
    ParseFloat (.num ⟨false, 3, 0⟩) = .ok (Float64.ofInt 3) ∧
    ParseFloat (.num ⟨false, 30, -1⟩) = .ok (Float64.ofInt 3) ∧
    ParseFloat (.num ⟨true, 15, 1⟩) = .ok (Float64.ofInt (-150)) ∧
    ParseFloat (.num ⟨false, 5, -1⟩) = .ok (.finite false 4503599627370496 (-53)) ∧
    ParseFloat (.num ⟨false, 1, -1⟩) = .ok (.finite false 7205759403792794 (-56)) ∧
    ParseFloat (.num ⟨true, 0, 0⟩) = .ok (.finite true 0 (-1074)) ∧
    ParseFloat (.num ⟨false, 1, 400⟩) = .error MalformedValueError ∧
    ParseFloat (.str "3") = .error MalformedValueError := by
  decide!

/-! ## The claims on the extraction -/

/-- The extraction returns exactly when every custom-field member of the
object it iterates over decodes; otherwise the handler panics. -/
theorem extractCustomFields_ok_iff (body : Json) :
    (∃ m, extractCustomFields body = .ok m) ↔ allDecode (issueFields body) = true :=
  eachMember_ok_iff (issueFields body) GoMap.empty

/-- C2: `issueFields body` being the members the handler's `ObjectEach`
iterates over (on a body with one `issue` holding one `fields` object, the
members of that object), the extraction returns exactly when every
custom-field member among them decodes, and then, for every name `k` of such a
member that starts with "customfield_" and whose value is a number that parses
(every member of that name holding this number), `CustomFields[k]` is present
and equals that number parsed as a `float64`. -/
theorem number_field_extracted (body : Json) :
    ((∃ m, extractCustomFields body = .ok m) ↔ allDecode (issueFields body) = true) ∧
    (∀ fs, IsIssueFields body fs → issueFields body = fs) ∧
    ∀ m, extractCustomFields body = .ok m →
      ∀ k n f, HasPrefix k "customfield_" = true →
        (k, Json.num n) ∈ issueFields body →
        (∀ v, (k, v) ∈ issueFields body → v = Json.num n) →
        ParseFloat (.num n) = .ok f → m k = some (.float64 f) := by
  refine ⟨extractCustomFields_ok_iff body, issueFields_of_unique body, ?_⟩
  intro m hm k n f hp hmem hfun hf
  apply eachMember_value (issueFields body) GoMap.empty m k (.num n) (.float64 f) hm hfun ?_
    (Or.inl hmem)
  intro acc0 acc1 hcb
  rw [callback_num k n acc0 hp, hf] at hcb
  injection hcb with hcb
  simp [← hcb, GoMap.set]

/-- Examples for C2: in the sample body `"customfield_10021": 3` yields
`CustomFields["customfield_10021"] = 3.0`; so it does in the body whose first
`issue` is empty and whose second `issue` holds the fields; when that second
`issue` holds `1e400` instead, the handler panics. -/
theorem number_field_extracted_witness :
    (∃ m, extractCustomFields sampleBody = .ok m ∧
      m "customfield_10021" = some (.float64 (Float64.ofInt 3))) ∧
    lookups (extractCustomFields sampleBody) ["customfield_10021"]
      = .ok [some (.float64 (.finite false 6755399441055744 (-51)))] ∧
    lookups (extractCustomFields duplicateIssueBody) ["customfield_10021"]
      = .ok [some (.float64 (Float64.ofInt 3))] ∧
    lookups (extractCustomFields duplicateIssueHugeBody) ["customfield_10021"]
      = .error (.err MalformedValueError) := by
  refine ⟨?_, by decide, by decide, by decide!⟩
  obtain ⟨hok, huniq, hval⟩ := number_field_extracted sampleBody
  have hfs := huniq sampleFields isIssueFields_sampleBody
  obtain ⟨m, hm⟩ := hok.mpr (by decide)
  refine ⟨m, hm, hval m hm "customfield_10021" ⟨false, 3, 0⟩ (Float64.ofInt 3) (by decide)
    ?_ ?_ (by decide)⟩
  · rw [hfs]
    simp [sampleFields]
  · intro v hv
    rw [hfs] at hv
    simpa [sampleFields] using hv

/-- C3: `issueFields body` being the members the handler's `ObjectEach`
iterates over (on a body with one `issue` holding one `fields` object, the
members of that object), the extraction returns exactly when every
custom-field member among them decodes, and then, for every name `k` of such a
member that starts with "customfield_" (every member of that name holding the
same value): if the value is a string, `CustomFields[k]` is present and equals
the unescaped string; if the value is neither a number nor a string (object,
array, boolean, null), `k` is absent from `CustomFields`. On a value of those
other types the callback returns normally and leaves the map as it was, so
such a member never makes the extraction fail. -/
theorem string_field_extracted (body : Json) :
    ((∃ m, extractCustomFields body = .ok m) ↔ allDecode (issueFields body) = true) ∧
    (∀ fs, IsIssueFields body fs → issueFields body = fs) ∧
    (∀ k v acc, v.isScalar = false → customFieldCallback k v v.valueType acc = .ok acc) ∧
    ∀ m, extractCustomFields body = .ok m →
      (∀ k raw s, HasPrefix k "customfield_" = true →
        (k, Json.str raw) ∈ issueFields body →
        (∀ v, (k, v) ∈ issueFields body → v = Json.str raw) →
        ParseString (.str raw) = .ok s → m k = some (.string s)) ∧
      (∀ k v, HasPrefix k "customfield_" = true →
        (k, v) ∈ issueFields body →
        (∀ v1, (k, v1) ∈ issueFields body → v1 = v) →
        v.isScalar = false → m k = none) := by
  refine ⟨extractCustomFields_ok_iff body, issueFields_of_unique body,
    fun k v acc h => callback_not_scalar k v acc h, ?_⟩
  intro m hm
  constructor
  · intro k raw s hp hmem hfun hs
    apply eachMember_value (issueFields body) GoMap.empty m k (.str raw) (.string s) hm hfun ?_
      (Or.inl hmem)
    intro acc0 acc1 hcb
    rw [callback_str k raw acc0 hp, hs] at hcb
    injection hcb with hcb
    simp [← hcb, GoMap.set]
  · intro k v _ _ hfun hsc
    have hframe := eachMember_frame (issueFields body) GoMap.empty m k hm (by
      intro v1 hv1
      rw [hfun v1 hv1]
      exact Or.inr hsc)
    rw [hframe]
    rfl

/-- Examples for C3: in the sample body the epic reference is extracted as
the string "EPIC-1", the string written with the escapes `\u00e9`, `\"`,
`\n` and `\ud83d\ude00` is extracted with these decoded, and the
custom fields holding null and an array are absent; a string with the
malformed escape `\q` makes the handler panic. -/
theorem string_field_extracted_witness :
    (∃ m, extractCustomFields sampleBody = .ok m ∧
      m "customfield_10025" = some (.string "EPIC-1") ∧
      m "customfield_10026" = some (.string "café \"A\"\n😀") ∧
      m "customfield_10030" = none ∧ m "customfield_10031" = none) ∧
    lookups (extractCustomFields sampleBody)
        ["customfield_10025", "customfield_10026", "customfield_10030", "customfield_10031"]
      = .ok [some (.string "EPIC-1"),
          some (.string (String.mk ['c', 'a', 'f', Char.ofNat 233, ' ', '"', 'A', '"',
            Char.ofNat 10, Char.ofNat 128512])),
          none, none] ∧
    lookups (extractCustomFields duplicateIssueBody) ["customfield_10025"]
      = .ok [some (.string "EPIC-1")] ∧
    lookups (extractCustomFields badEscapeBody) ["customfield_10026"]
      = .error (.err MalformedValueError) := by
  refine ⟨?_, by decide, by decide, by decide⟩
  obtain ⟨hok, huniq, -, hval⟩ := string_field_extracted sampleBody
  have hfs := huniq sampleFields isIssueFields_sampleBody
  obtain ⟨m, hm⟩ := hok.mpr (by decide)
  obtain ⟨hstr, hother⟩ := hval m hm
  refine ⟨m, hm, hstr "customfield_10025" "EPIC-1" "EPIC-1" (by decide) ?_ ?_ (by decide),
    hstr "customfield_10026" "caf\\u00e9 \\\"A\\\"\\n\\ud83d\\ude00" "café \"A\"\n😀" (by decide)
      ?_ ?_ (by decide),
    hother "customfield_10030" .null (by decide) ?_ ?_ rfl,
    hother "customfield_10031" (.arr [.num ⟨false, 4, 0⟩]) (by decide) ?_ ?_ rfl⟩
  all_goals first
    | (intro v hv
       rw [hfs] at hv
       simpa [sampleFields] using hv)
    | (rw [hfs]
       simp [sampleFields])

/-- C4: `issueFields body` being the members the handler's `ObjectEach`
iterates over (on a body with one `issue` holding one `fields` object, the
members of that object), when the extraction returns the keys of
`CustomFields` are exactly the names of those members that start with
"customfield_" and hold a number or a string. Every key present is thus the
name of an immediate member of an object that is itself a member named
`fields` of a member named `issue` of the body: no key without the prefix is
present (none of the static schema, such as "description" or "priority"), nor
is a custom-field name that only occurs deeper below `issue.fields` or outside
of it. The extraction returns exactly when every custom-field member
decodes. -/
theorem custom_field_key_set (body : Json) :
    ((∃ m, extractCustomFields body = .ok m) ↔ allDecode (issueFields body) = true) ∧
    (∀ fs, IsIssueFields body fs → issueFields body = fs) ∧
    ∀ m, extractCustomFields body = .ok m →
      (∀ k, (m k).isSome = true ↔
        (HasPrefix k "customfield_" = true ∧
          ∃ v, (k, v) ∈ issueFields body ∧ v.isScalar = true)) ∧
      (∀ k, (m k).isSome = true →
        ∃ ms im fs v, body = .obj ms ∧ ("issue", Json.obj im) ∈ ms ∧
          ("fields", Json.obj fs) ∈ im ∧ (k, v) ∈ fs ∧ v.isScalar = true) ∧
      (∀ k, HasPrefix k "customfield_" = false → m k = none) ∧
      m "description" = none ∧ m "priority" = none := by
  refine ⟨extractCustomFields_ok_iff body, issueFields_of_unique body, ?_⟩
  intro m hm
  have hkeys : ∀ k, (m k).isSome = true ↔
      (HasPrefix k "customfield_" = true ∧
        ∃ v, (k, v) ∈ issueFields body ∧ v.isScalar = true) := by
    intro k
    rw [eachMember_isSome (issueFields body) GoMap.empty m k hm]
    simp [GoMap.empty]
  have hplace : ∀ k, (m k).isSome = true →
      ∃ ms im fs v, body = .obj ms ∧ ("issue", Json.obj im) ∈ ms ∧
        ("fields", Json.obj fs) ∈ im ∧ (k, v) ∈ fs ∧ v.isScalar = true := by
    intro k hk
    obtain ⟨-, v, hv, hsc⟩ := (hkeys k).mp hk
    rcases issueFields_sound body with hnil | ⟨ms, im, hbody, hi, hf⟩
    · rw [hnil] at hv
      cases hv
    · exact ⟨ms, im, issueFields body, v, hbody, hi, hf, hv, hsc⟩
  have hnone : ∀ k, HasPrefix k "customfield_" = false → m k = none := by
    intro k hk
    cases hmk : m k with
    | none => rfl
    | some val =>
      have := (hkeys k).mp (by rw [hmk]; rfl)
      rw [hk] at this
      exact absurd this.1 (by decide)
  exact ⟨hkeys, hplace, hnone, hnone _ (by decide), hnone _ (by decide)⟩

/-- Examples for C4: the map extracted from the sample body holds the story
points, the epic reference and the string field; it holds neither the static
fields, nor the custom fields of another type, nor the custom-field names
nested below `issue.fields.priority` or placed outside `issue.fields`. From
the body with custom-field names in every place only the immediate member of
`issue.fields` is extracted; nothing is extracted when the `fields` object is
at top level, when the custom fields are members of `issue` itself, or when
the first `fields` of `issue` is null. -/
theorem custom_field_key_set_witness :
    (∃ m, extractCustomFields sampleBody = .ok m ∧
      (m "customfield_10021").isSome = true ∧ (m "customfield_10025").isSome = true ∧
      (m "customfield_10026").isSome = true ∧
      m "description" = none ∧ m "priority" = none ∧
      m "customfield_10030" = none ∧ m "customfield_10031" = none ∧
      m "customfield_10050" = none ∧ m "customfield_10040" = none) ∧
    lookups (extractCustomFields misplacedBody)
        ["customfield_10021", "customfield_10040", "customfield_10041", "customfield_10042",
          "customfield_10043", "customfield_10044", "customfield_10050", "priority", "labels"]
      = .ok [some (.float64 (Float64.ofInt 3)), none, none, none, none, none, none, none, none] ∧
    lookups (extractCustomFields noIssueBody) ["customfield_10021", "customfield_10025"]
      = .ok [none, none] ∧
    lookups (extractCustomFields noFieldsBody) ["customfield_10021", "customfield_10025"]
      = .ok [none, none] ∧
    lookups (extractCustomFields nullFieldsBody) ["customfield_10021", "customfield_10025"]
      = .ok [none, none] ∧
    lookups (extractCustomFields duplicateIssueBody) ["customfield_10021", "customfield_10025"]
      = .ok [some (.float64 (Float64.ofInt 3)), some (.string "EPIC-1")] := by
  refine ⟨?_, by decide⟩
  obtain ⟨hok, huniq, hval⟩ := custom_field_key_set sampleBody
  have hfs := huniq sampleFields isIssueFields_sampleBody
  obtain ⟨m, hm⟩ := hok.mpr (by decide)
  obtain ⟨hkeys, -, -, hd, hp⟩ := hval m hm
  have habsent : ∀ k, (¬ ∃ v, (k, v) ∈ issueFields sampleBody ∧ v.isScalar = true) →
      m k = none := by
    intro k hk
    cases hmk : m k with
    | none => rfl
    | some val => exact absurd ((hkeys k).mp (by rw [hmk]; rfl)).2 hk
  rw [hfs] at hkeys habsent
  refine ⟨m, hm, (hkeys _).mpr ⟨by decide, .num ⟨false, 3, 0⟩, ?_, rfl⟩,
    (hkeys _).mpr ⟨by decide, .str "EPIC-1", ?_, rfl⟩,
    (hkeys _).mpr ⟨by decide, .str "caf\\u00e9 \\\"A\\\"\\n\\ud83d\\ude00", ?_, rfl⟩, hd, hp,
    habsent _ ?_, habsent _ ?_, habsent _ ?_, habsent _ ?_⟩
  all_goals simp [sampleFields, Json.isScalar]

end JiraWebhook
